import Mathlib

/-!
Verification of the marl-forecast-game engine against its specification.

Scalars of the Python source (IEEE-754 binary64) are modelled as exact
rationals; the idealized real numbers appear only where the source applies
transcendental functions (math.exp, sqrt).  Keyed mappings are modelled as
association lists, Python dict/list values as Lean structures and lists.
The deterministic random stream is modelled as a pair of indexed streams
(uniform units and standard gaussians) together with consumption counters,
so that the number and order of draws a function consumes is observable.
-/

namespace Marl

/-- Association-list lookup, modelling Python `mapping[key]` /
`key in mapping` over string-keyed float mappings. -/
def alookup (m : List (String × ℚ)) (k : String) : Option ℚ :=
  match m with
  | [] => none
  | (k', v) :: rest => if k' = k then some v else alookup rest k

/-- Immutable state for the forecasting Markov game (types.ForecastState). -/
structure ForecastState where
  t : ℕ
  value : ℚ
  exogenous : ℚ
  hidden_shift : ℚ
  segment_id : String := ""
  segment_values : List (String × ℚ) := []
  macro_context : List (String × ℚ) := []
  deriving DecidableEq, Repr

/-- An agent's proposed delta (types.AgentAction). -/
structure AgentAction where
  actor : String
  delta : ℚ
  deriving DecidableEq, Repr

/-- Inter-agent message; the source formats the delta into the payload
text, we keep the raw delta (types.AgentMessage). -/
structure AgentMessage where
  sender : String
  receiver : String
  payloadDelta : ℚ
  deriving DecidableEq, Repr

/-- Confidence band around a forecast (types.ConfidenceInterval). -/
structure ConfidenceInterval where
  lower : ℚ
  upper : ℚ
  deriving DecidableEq, Repr

/-- Macro-coefficient contribution of types.evolve_state: iterates the
coefficient map and adds coeff * macro_context[key] for keys present in
the state's macro context. -/
def macroContribution (coeff_map : List (String × ℚ))
    (macro_context : List (String × ℚ)) : ℚ :=
  match coeff_map with
  | [] => 0
  | (k, coeff) :: rest =>
      (match alookup macro_context k with
       | some v => coeff * v
       | none => 0) + macroContribution rest macro_context

/-- Pure state transition (types.evolve_state).  The optional coefficient
map is passed as a list; the source guards the macro loop behind
`if coeff_map and state.macro_context`. -/
def evolve_state (state : ForecastState) (base_trend noise disturbance : ℚ)
    (coeff_map : List (String × ℚ) := []) : ForecastState :=
  let contribution :=
    if coeff_map ≠ [] ∧ state.macro_context ≠ [] then
      macroContribution coeff_map state.macro_context
    else 0
  { state with
      t := state.t + 1
      value := state.value + base_trend + (2/5) * state.exogenous + noise
                 + disturbance + contribution
      exogenous := (3/5) * state.exogenous + (1/5) * disturbance
      hidden_shift := disturbance }

theorem macroContribution_nil_ctx :
    ∀ (coeff_map : List (String × ℚ)), macroContribution coeff_map [] = 0 := by
  intro coeff_map
  induction coeff_map with
  | nil => rfl
  | cons p rest ih =>
      obtain ⟨k, coeff⟩ := p
      unfold macroContribution
      rw [ih]
      simp [alookup]

/-- C4: the transition is pure and computes exactly the documented fields:
value picks up base_trend + 0.4*exogenous + noise + disturbance + the sum
of coeff * macro_context[key] over the coefficient keys present in the
macro context, exogenous becomes 0.6*exogenous + 0.2*disturbance,
hidden_shift records the disturbance, t increments, and segment_id,
segment_values and macro_context are unchanged; equal inputs give equal
outputs. -/
theorem evolve_state_spec (state : ForecastState)
    (base_trend noise disturbance : ℚ) (coeff_map : List (String × ℚ)) :
    (evolve_state state base_trend noise disturbance coeff_map).value
        = state.value + base_trend + (2/5) * state.exogenous + noise
            + disturbance
            + macroContribution coeff_map state.macro_context
      ∧ (evolve_state state base_trend noise disturbance coeff_map).exogenous
        = (3/5) * state.exogenous + (1/5) * disturbance
      ∧ (evolve_state state base_trend noise disturbance coeff_map).hidden_shift
        = disturbance
      ∧ (evolve_state state base_trend noise disturbance coeff_map).t
        = state.t + 1
      ∧ (evolve_state state base_trend noise disturbance coeff_map).segment_id
        = state.segment_id
      ∧ (evolve_state state base_trend noise disturbance coeff_map).segment_values
        = state.segment_values
      ∧ (evolve_state state base_trend noise disturbance coeff_map).macro_context
        = state.macro_context
      ∧ ∀ (s' : ForecastState) (bt' n' d' : ℚ) (cm' : List (String × ℚ)),
          s' = state → bt' = base_trend → n' = noise → d' = disturbance →
          cm' = coeff_map →
          evolve_state s' bt' n' d' cm'
            = evolve_state state base_trend noise disturbance coeff_map := by
  refine ⟨?_, rfl, rfl, rfl, rfl, rfl, rfl, ?_⟩
  · have hval : (evolve_state state base_trend noise disturbance coeff_map).value
        = state.value + base_trend + (2/5) * state.exogenous + noise
            + disturbance
            + (if coeff_map ≠ [] ∧ state.macro_context ≠ [] then
                macroContribution coeff_map state.macro_context else 0) := rfl
    rw [hval]
    by_cases h : coeff_map ≠ [] ∧ state.macro_context ≠ []
    · rw [if_pos h]
    · rw [if_neg h]
      push_neg at h
      rcases eq_or_ne coeff_map [] with hc | hc
      · subst hc
        rw [show macroContribution [] state.macro_context = 0 from rfl]
      · rw [h hc, macroContribution_nil_ctx]
  · intro s' bt' n' d' cm' hs hbt hn hd hcm
    subst hs; subst hbt; subst hn; subst hd; subst hcm
    rfl

/-- Witness for evolve_state_spec at a concrete state and inputs. -/
theorem evolve_state_spec_witness :
    (evolve_state ⟨0, 10, 1, 0, "", [], [("gdp", 2)]⟩ (2/5) 0 1 [("gdp", 3)]).value
        = 10 + 2/5 + 2/5 + 0 + 1 + 6 := by
  have h := evolve_state_spec ⟨0, 10, 1, 0, "", [], [("gdp", 2)]⟩ (2/5) 0 1 [("gdp", 3)]
  rw [h.1]
  norm_num [macroContribution, alookup]

/-- Deterministic random stream: an indexed stream of uniform unit draws
and an indexed stream of standard gaussian draws, with consumption
counters.  Models the engine-owned random.Random instance; consumption
counts and order are observable through the counters. -/
structure RNG where
  units : ℕ → ℚ
  gaussStream : ℕ → ℚ
  u : ℕ := 0
  g : ℕ := 0

/-- Draw one uniform unit value (rng.random()). -/
def nextUnit (r : RNG) : ℚ × RNG :=
  (r.units r.u, { r with u := r.u + 1 })

/-- Draw one gaussian value (rng.gauss(mean, std)); modelled as
mean + std * (standard gaussian draw). -/
def nextGauss (r : RNG) (mean std : ℚ) : ℚ × RNG :=
  (mean + std * r.gaussStream r.g, { r with g := r.g + 1 })

/-- Simulation configuration (types.SimulationConfig) with the source's
default field values. -/
structure SimulationConfig where
  horizon : ℤ := 100
  max_rounds : ℤ := 200
  max_round_timeout_s : ℚ := 1
  base_noise_std : ℚ := 3/20
  disturbance_prob : ℚ := 1/10
  disturbance_scale : ℚ := 1
  adversarial_intensity : ℚ := 1
  runtime_backend : String := "python"
  disturbance_model : String := "gaussian"
  defense_model : String := "dampening"
  enable_refactor : Bool := true
  enable_llm_refactor : Bool := false
  attack_cost : ℚ := 0
  deriving Repr

/-- Constructor-time validation of SimulationConfig (its post-init). -/
def SimulationConfig.Valid (c : SimulationConfig) : Prop :=
  0 ≤ c.horizon ∧ 0 ≤ c.max_rounds ∧ 0 < c.max_round_timeout_s
    ∧ 0 ≤ c.base_noise_std ∧ 0 ≤ c.disturbance_prob ∧ c.disturbance_prob ≤ 1
    ∧ 0 ≤ c.disturbance_scale ∧ 0 ≤ c.adversarial_intensity
    ∧ 0 ≤ c.attack_cost

instance (c : SimulationConfig) : Decidable c.Valid := by
  unfold SimulationConfig.Valid; infer_instance

/-- Python str.lower() over the string's characters. -/
def pyLower (s : String) : String := ⟨s.data.map Char.toLower⟩

/-- Python whitespace test used by str.strip(). -/
def isPySpace (c : Char) : Bool :=
  c = ' ' || c = '\t' || c = '\n' || c = '\r' || c = '\x0b' || c = '\x0c'

/-- Python str.strip() on a character list. -/
def pyStripList (l : List Char) : List Char :=
  ((l.dropWhile isPySpace).reverse.dropWhile isPySpace).reverse

/-- Python str.strip(). -/
def pyStrip (s : String) : String := ⟨pyStripList s.data⟩

/-- Strategy runtime variants (strategy_runtime.py).  The haskell and
prompt runtimes delegate to external processes or clients; the prompt
runtime carries its client's fixed response text. -/
inductive StrategyRuntime where
  | python
  | haskellrlm
  | prompt (response : String)
  deriving DecidableEq, Repr

/-- Parse of the prompt client's response text: the prompt runtime falls
back to the python runtime when float(text) fails.  Modelled from the
source's float() call on the stripped completion, restricted to the
deterministic client's decimal responses. -/
def parseRat (s : String) : Option ℚ :=
  if s = "0.0" then some 0 else none

/-- forecast_delta of each runtime.  PythonStrategyRuntime returns
0.4 + 0.4 * exogenous; HaskellRLMRuntime falls back to the python
runtime when the subprocess is unavailable (as in this hermetic model);
PromptStrategyRuntime parses its client response and falls back to the
python runtime on parse failure. -/
def StrategyRuntime.forecast_delta : StrategyRuntime → ForecastState → ℚ
  | .python, state => 2/5 + (2/5) * state.exogenous
  | .haskellrlm, state => 2/5 + (2/5) * state.exogenous
  | .prompt response, state =>
      match parseRat (pyStrip response) with
      | some v => v
      | none => 2/5 + (2/5) * state.exogenous

/-- Name resolution for strategy runtimes (runtime_from_name). -/
def runtime_from_name (name : String) : StrategyRuntime :=
  let normalized := pyLower (pyStrip name)
  if normalized = "python" ∨ normalized = "default" then .python
  else if normalized = "haskell" ∨ normalized = "haskellrlm" then .haskellrlm
  else if normalized = "prompt" ∨ normalized = "mock_llm" ∨ normalized = "llm" then
    .prompt "0.0"
  else .python

/-- C2 counterexample: at exogenous = 1 the runtime named "python"
returns 0.8, not 0.55 + 0.35 * 1 = 0.9 as the claim states. -/
theorem python_runtime_delta_counterexample :
    (runtime_from_name "python").forecast_delta ⟨0, 10, 1, 0, "", [], []⟩ = 4/5
      ∧ ¬ ((runtime_from_name "python").forecast_delta ⟨0, 10, 1, 0, "", [], []⟩
            = 11/20 + (7/20) * 1) := by
  have h : runtime_from_name "python" = .python := by decide
  rw [h]
  unfold StrategyRuntime.forecast_delta
  norm_num

/-- C2 (amended): the runtime named "python" or "default" returns the
base forecast delta 0.4 + 0.4 * exogenous for every state, and
runtime_from_name resolves every unknown name to that same default
python runtime. -/
theorem runtime_from_name_spec (state : ForecastState) (name : String)
    (hunknown : ¬ (pyLower (pyStrip name) = "python"
        ∨ pyLower (pyStrip name) = "default"
        ∨ pyLower (pyStrip name) = "haskell"
        ∨ pyLower (pyStrip name) = "haskellrlm"
        ∨ pyLower (pyStrip name) = "prompt"
        ∨ pyLower (pyStrip name) = "mock_llm"
        ∨ pyLower (pyStrip name) = "llm")) :
    (runtime_from_name "python").forecast_delta state
        = 2/5 + (2/5) * state.exogenous
      ∧ (runtime_from_name "default").forecast_delta state
        = 2/5 + (2/5) * state.exogenous
      ∧ runtime_from_name name = .python := by
  refine ⟨rfl, rfl, ?_⟩
  push_neg at hunknown
  obtain ⟨h1, h2, h3, h4, h5, h6, h7⟩ := hunknown
  unfold runtime_from_name
  simp [h1, h2, h3, h4, h5, h6, h7]

/-- Witness for runtime_from_name_spec: the unknown name "rust" resolves
to the python runtime. -/
theorem runtime_from_name_spec_witness :
    runtime_from_name "rust" = .python :=
  (runtime_from_name_spec ⟨0, 0, 0, 0, "", [], []⟩ "rust" (by decide)).2.2

/-- Disturbance model variants with their dataclass parameters
(disturbances.py). -/
inductive DisturbanceModel where
  | gaussian
  | shiftD (shift : ℚ)
  | evasion (factor : ℚ)
  | volatilityScaled (min_scale : ℚ)
  | regimeShift (level_shift : ℚ) (every_n_steps : ℤ)
  | volatilityBurst (burst_scale : ℚ)
  | drift (step_drift : ℚ)
  deriving DecidableEq, Repr

/-- sample of each disturbance model, translated branch for branch; the
Python short-circuit conjunctions are rendered as nested conditionals so
that a draw happens exactly where the source calls rng.random(). -/
def DisturbanceModel.sample (m : DisturbanceModel) (state : ForecastState)
    (rng : RNG) (config : SimulationConfig) : ℚ × RNG :=
  match m with
  | .gaussian =>
      let (u, r1) := nextUnit rng
      if u ≤ config.disturbance_prob then
        nextGauss r1 0 (config.disturbance_scale * config.adversarial_intensity)
      else (0, r1)
  | .shiftD shift =>
      let (u, r1) := nextUnit rng
      if u ≤ config.disturbance_prob then
        (shift * config.adversarial_intensity, r1)
      else (0, r1)
  | .evasion factor =>
      let (u, r1) := nextUnit rng
      if u ≤ config.disturbance_prob then
        ((if 0 ≤ state.value then (1:ℚ) else -1)
            * config.disturbance_scale * factor * config.adversarial_intensity,
          r1)
      else (0, r1)
  | .volatilityScaled min_scale =>
      let (u, r1) := nextUnit rng
      if config.disturbance_prob < u then (0, r1)
      else
        let dynamic_scale := max min_scale (|state.hidden_shift| + |state.exogenous|)
        nextGauss r1 0
          (config.disturbance_scale * dynamic_scale * config.adversarial_intensity)
  | .regimeShift level_shift every_n_steps =>
      if every_n_steps ≤ 0 then (0, rng)
      else if 0 < state.t ∧ (state.t : ℤ) % every_n_steps = 0 then
        let (u, r1) := nextUnit rng
        if u ≤ config.disturbance_prob then
          let (u2, r2) := nextUnit r1
          ((if u2 < 1/2 then (-1:ℚ) else 1)
              * level_shift * config.adversarial_intensity, r2)
        else (0, r1)
      else (0, rng)
  | .volatilityBurst burst_scale =>
      let (u, r1) := nextUnit rng
      if config.disturbance_prob < u then (0, r1)
      else
        nextGauss r1 0
          (config.disturbance_scale * config.adversarial_intensity * burst_scale)
  | .drift step_drift =>
      let (u, r1) := nextUnit rng
      if config.disturbance_prob < u then (0, r1)
      else
        ((if 0 ≤ state.exogenous then (1:ℚ) else -1)
            * step_drift * ((state.t : ℚ) + 1) * config.adversarial_intensity,
          r1)

/-- Name resolution for disturbance models (disturbance_from_name), with
the source's default dataclass parameters. -/
def disturbance_from_name (name : String) : DisturbanceModel :=
  let normalized := pyLower (pyStrip name)
  if normalized = "gaussian" ∨ normalized = "default" then .gaussian
  else if normalized = "shift" ∨ normalized = "regime_shift_basic" then .shiftD (7/20)
  else if normalized = "evasion" ∨ normalized = "evasion_like" then .evasion (1/5)
  else if normalized = "volatility" ∨ normalized = "volatility_scaled"
      ∨ normalized = "vol_scaled" then .volatilityScaled (1/20)
  else if normalized = "regime_shift" ∨ normalized = "regime" then
    .regimeShift (4/5) 12
  else if normalized = "volatility_burst" ∨ normalized = "burst" then
    .volatilityBurst (5/2)
  else if normalized = "drift" ∨ normalized = "systematic_drift" then .drift (3/100)
  else .gaussian

/-- Test for the regime-shift variant of the registry. -/
def DisturbanceModel.isRegimeShift : DisturbanceModel → Bool
  | .regimeShift _ _ => true
  | _ => false

/-- Every non-regime-shift model's sample consumes exactly one unit draw
first: its unit counter advances by one and the unit stream itself is
untouched, for every state, config and stream. -/
theorem sample_consumes_one_unit (m : DisturbanceModel)
    (hm : m.isRegimeShift = false) (state : ForecastState) (rng : RNG)
    (config : SimulationConfig) :
    ((m.sample state rng config).2).u = rng.u + 1 := by
  cases m <;> simp_all [DisturbanceModel.isRegimeShift, DisturbanceModel.sample,
    nextUnit, nextGauss] <;> split <;> rfl

/-- C1 counterexample: the regime_shift model from the registry, sampled
at a state with t = 1 (not on its 12-step period), returns 0 and leaves
the stream completely untouched: it consumes zero unit draws where the
claim requires one. -/
theorem disturbance_unit_draw_counterexample :
    (DisturbanceModel.sample (disturbance_from_name "regime_shift")
        ⟨1, 10, 0, 0, "", [], []⟩ ⟨fun _ => 1/2, fun _ => 1, 0, 0⟩ {}).2.u = 0
      ∧ ¬ ((DisturbanceModel.sample (disturbance_from_name "regime_shift")
            ⟨1, 10, 0, 0, "", [], []⟩ ⟨fun _ => 1/2, fun _ => 1, 0, 0⟩ {}).2.u
          = 0 + 1) := by
  have h : disturbance_from_name "regime_shift" = .regimeShift (4/5) 12 := rfl
  rw [h]
  have h2 : DisturbanceModel.sample (.regimeShift (4/5) 12)
      ⟨1, 10, 0, 0, "", [], []⟩ ⟨fun _ => 1/2, fun _ => 1, 0, 0⟩ {}
      = (0, ⟨fun _ => 1/2, fun _ => 1, 0, 0⟩) := by
    unfold DisturbanceModel.sample
    norm_num
  rw [h2]
  exact ⟨rfl, by decide⟩

/-- C1 (amended): every model the registry produces for a name other
than the regime-shift names consumes exactly one unit uniform draw per
sample call (its unit counter advances by one before any further
consumption), while the regime-shift model consumes no draw at all on
calls whose periodic trigger condition fails (non-positive period, t = 0,
or t not a multiple of the period): such calls return 0 with the stream
untouched, so regime_shift is not seed-compatible with the other
variants. -/
theorem disturbance_unit_draw_spec (name : String) (state : ForecastState)
    (rng : RNG) (config : SimulationConfig)
    (hname : (disturbance_from_name name).isRegimeShift = false) :
    (((disturbance_from_name name).sample state rng config).2).u = rng.u + 1
      ∧ ∀ (level_shift : ℚ) (every_n_steps : ℤ),
          (every_n_steps ≤ 0 ∨ ¬ (0 < state.t ∧ (state.t : ℤ) % every_n_steps = 0)) →
          DisturbanceModel.sample (.regimeShift level_shift every_n_steps)
              state rng config = (0, rng) := by
  refine ⟨sample_consumes_one_unit _ hname state rng config, ?_⟩
  intro level_shift every_n_steps htrig
  simp only [DisturbanceModel.sample]
  rcases htrig with h | h
  · rw [if_pos h]
  · by_cases h0 : every_n_steps ≤ 0
    · rw [if_pos h0]
    · rw [if_neg h0, if_neg h]

/-- Witness for disturbance_unit_draw_spec: the gaussian-named model at a
concrete state, stream and config advances the unit counter from 0 to 1,
and the regime-shift model consumes nothing at t = 1 with period 12. -/
theorem disturbance_unit_draw_spec_witness :
    (((disturbance_from_name "gaussian").sample ⟨1, 10, 0, 0, "", [], []⟩
        ⟨fun _ => 1/2, fun _ => 1, 0, 0⟩ {}).2).u = 0 + 1
      ∧ DisturbanceModel.sample (.regimeShift (4/5) 12)
          ⟨1, 10, 0, 0, "", [], []⟩ ⟨fun _ => 1/2, fun _ => 1, 0, 0⟩ {}
        = (0, ⟨fun _ => 1/2, fun _ => 1, 0, 0⟩) := by
  have h := disturbance_unit_draw_spec "gaussian" ⟨1, 10, 0, 0, "", [], []⟩
    ⟨fun _ => 1/2, fun _ => 1, 0, 0⟩ {} (by decide)
  exact ⟨h.1, h.2 (4/5) 12 (by right; decide)⟩

/-- Defense model variants with their dataclass parameters (defenses.py).
The ensemble carries the parameters of its three fixed sub-defenses. -/
inductive DefenseModel where
  | dampeningD (dampening : ℚ)
  | clippingD (clip : ℚ)
  | biasGuard (max_bias : ℚ)
  | ensembleD (dampening clip max_bias : ℚ)
  | stacked (first second : DefenseModel)
  deriving DecidableEq, Repr

/-- defend of each model, translated branch for branch; the ensemble
inlines its three sub-defense formulas with its stored parameters. -/
def DefenseModel.defend : DefenseModel → ℚ → ℚ → ℚ
  | .dampeningD d, forecast_delta, adversary_delta =>
      -(adversary_delta * d) - (1/10) * max (-1) (min 1 forecast_delta)
  | .clippingD c, _, adversary_delta =>
      max (-c) (min c (-adversary_delta))
  | .biasGuard b, _, adversary_delta =>
      if |adversary_delta| < b then -adversary_delta
      else if 0 < adversary_delta then -b else b
  | .ensembleD d c b, forecast_delta, adversary_delta =>
      ((-(adversary_delta * d) - (1/10) * max (-1) (min 1 forecast_delta))
        + (max (-c) (min c (-adversary_delta)))
        + (if |adversary_delta| < b then -adversary_delta
           else if 0 < adversary_delta then -b else b)) / 3
  | .stacked first second, forecast_delta, adversary_delta =>
      let first_out := first.defend forecast_delta adversary_delta
      second.defend (forecast_delta + first_out) (adversary_delta + first_out)

/-- Python models.split(",") over a character list. -/
def splitChar (sep : Char) : List Char → List (List Char)
  | [] => [[]]
  | c :: rest =>
      if c = sep then [] :: splitChar sep rest
      else
        match splitChar sep rest with
        | [] => [[c]]
        | h :: t => (c :: h) :: t

/-- The name normalization name.strip().lower() of defense_from_name. -/
def normalizeName (name : List Char) : List Char :=
  (pyStripList name).map Char.toLower

/-- The stack:-composition operands: split the text after "stack:" on
commas, strip each part, keep the non-empty ones. -/
def stackParts (normalized : List Char) : List (List Char) :=
  ((splitChar ',' (normalized.drop 6)).map pyStripList).filter (fun p => p ≠ [])

/-- The non-stacking branches of defense_from_name: named variants with
their default parameters, with DampeningDefense as the fallback for
unknown names. -/
def baseDefense (normalized : List Char) : DefenseModel :=
  if normalized = "dampening".data ∨ normalized = "default".data then
    .dampeningD (3/5)
  else if normalized = "clipping".data ∨ normalized = "clip".data then
    .clippingD (1/5)
  else if normalized = "bias_guard".data ∨ normalized = "bias".data then
    .biasGuard (3/25)
  else if normalized = "ensemble".data ∨ normalized = "filter_ensemble".data then
    .ensembleD (3/5) (1/4) (3/25)
  else .dampeningD (3/5)

/-- Fuel-indexed translation of the recursive defense_from_name; the fuel
only bounds the recursion depth and is irrelevant once it exceeds the
name's length (dfnF_fuel_irrelevant). -/
def defense_from_name_fuel : ℕ → List Char → DefenseModel
  | 0, _ => .dampeningD (3/5)
  | fuel + 1, name =>
      let normalized := normalizeName name
      if normalized.take 6 = "stack:".data then
        match stackParts normalized with
        | p0 :: p1 :: _ =>
            .stacked (defense_from_name_fuel fuel p0)
              (defense_from_name_fuel fuel p1)
        | _ => baseDefense normalized
      else baseDefense normalized

/-- Name resolution for defense models (defense_from_name). -/
def defense_from_name (name : String) : DefenseModel :=
  defense_from_name_fuel (name.data.length + 1) name.data

theorem dropWhile_eq_self_of_all_false {p : Char → Bool} {l : List Char}
    (h : ∀ c ∈ l, p c = false) : l.dropWhile p = l := by
  cases l with
  | nil => rfl
  | cons c rest => simp [List.dropWhile, h c (by simp)]

theorem pyStripList_length_le (l : List Char) :
    (pyStripList l).length ≤ l.length := by
  unfold pyStripList
  calc (((l.dropWhile isPySpace).reverse.dropWhile isPySpace).reverse).length
      = ((l.dropWhile isPySpace).reverse.dropWhile isPySpace).length := by
        rw [List.length_reverse]
    _ ≤ (l.dropWhile isPySpace).reverse.length :=
        (List.dropWhile_sublist isPySpace).length_le
    _ = (l.dropWhile isPySpace).length := by rw [List.length_reverse]
    _ ≤ l.length := (List.dropWhile_sublist isPySpace).length_le

theorem pyStripList_eq_self_of_no_space {l : List Char}
    (h : ∀ c ∈ l, isPySpace c = false) : pyStripList l = l := by
  unfold pyStripList
  rw [dropWhile_eq_self_of_all_false h,
    dropWhile_eq_self_of_all_false (fun c hc => h c (List.mem_reverse.mp hc)),
    List.reverse_reverse]

theorem normalizeName_length_le (l : List Char) :
    (normalizeName l).length ≤ l.length := by
  unfold normalizeName
  rw [List.length_map]
  exact pyStripList_length_le l

theorem normalizeName_eq_self {l : List Char}
    (h : ∀ c ∈ l, isPySpace c = false ∧ Char.toLower c = c) :
    normalizeName l = l := by
  unfold normalizeName
  rw [pyStripList_eq_self_of_no_space (fun c hc => (h c hc).1)]
  exact List.map_congr_left (fun c hc => (h c hc).2) |>.trans (List.map_id l)

theorem splitChar_ne_nil (sep : Char) (l : List Char) : splitChar sep l ≠ [] := by
  cases l with
  | nil => simp [splitChar]
  | cons c rest =>
      unfold splitChar
      by_cases h : c = sep
      · simp [h]
      · simp only [if_neg h]
        rcases hr : splitChar sep rest with _ | ⟨h', t⟩ <;> simp

theorem splitChar_chunk_length_le (sep : Char) :
    ∀ (l : List Char), ∀ p ∈ splitChar sep l, p.length ≤ l.length := by
  intro l
  induction l with
  | nil => intro p hp; simp [splitChar] at hp; simp [hp]
  | cons c rest ih =>
      intro p hp
      unfold splitChar at hp
      by_cases h : c = sep
      · simp only [if_pos h] at hp
        rcases List.mem_cons.mp hp with hp' | hp'
        · simp [hp']
        · exact (ih p hp').trans (by simp)
      · simp only [if_neg h] at hp
        rcases hr : splitChar sep rest with _ | ⟨hd, t⟩
        · exact absurd hr (splitChar_ne_nil sep rest)
        · rw [hr] at hp
          rcases List.mem_cons.mp hp with hp' | hp'
          · subst hp'
            have : hd.length ≤ rest.length := ih hd (by rw [hr]; simp)
            simpa using this
          · have : p.length ≤ rest.length := ih p (by rw [hr]; simp [hp'])
            exact this.trans (by simp)

theorem stackParts_chunk_length_le (normalized : List Char) :
    ∀ p ∈ stackParts normalized, p.length ≤ normalized.length - 6 := by
  intro p hp
  unfold stackParts at hp
  obtain ⟨q, hq, hpq⟩ := List.mem_map.mp (List.mem_of_mem_filter hp)
  have h1 : q.length ≤ (normalized.drop 6).length :=
    splitChar_chunk_length_le ',' _ q hq
  have h2 : p.length ≤ q.length := by rw [← hpq]; exact pyStripList_length_le q
  simp only [List.length_drop] at h1
  omega

theorem dfnF_fuel_irrelevant :
    ∀ (f1 : ℕ), ∀ (f2 : ℕ) (l : List Char), l.length < f1 → l.length < f2 →
      defense_from_name_fuel f1 l = defense_from_name_fuel f2 l := by
  intro f1
  induction f1 with
  | zero => intro f2 l h1 _; exact absurd h1 (Nat.not_lt_zero _)
  | succ f ih =>
      intro f2 l h1 h2
      cases f2 with
      | zero => exact absurd h2 (Nat.not_lt_zero _)
      | succ f2' =>
          simp only [defense_from_name_fuel]
          by_cases hst : (normalizeName l).take 6 = "stack:".data
          · simp only [if_pos hst]
            have hlen6 : 6 ≤ (normalizeName l).length := by
              have hc := congrArg List.length hst
              rw [List.length_take] at hc
              have h6 : ("stack:".data).length = 6 := rfl
              rw [h6] at hc
              omega
            have hnl : (normalizeName l).length ≤ l.length :=
              normalizeName_length_le l
            rcases hp : stackParts (normalizeName l) with _ | ⟨p0, _ | ⟨p1, rest2⟩⟩
            · rfl
            · rfl
            · have hp0 : p0.length ≤ (normalizeName l).length - 6 :=
                stackParts_chunk_length_le _ p0 (by rw [hp]; simp)
              have hp1 : p1.length ≤ (normalizeName l).length - 6 :=
                stackParts_chunk_length_le _ p1 (by rw [hp]; simp)
              have e0 : defense_from_name_fuel f p0 = defense_from_name_fuel f2' p0 :=
                ih f2' p0 (by omega) (by omega)
              have e1 : defense_from_name_fuel f p1 = defense_from_name_fuel f2' p1 :=
                ih f2' p1 (by omega) (by omega)
              simp only [e0, e1]
          · simp only [if_neg hst]

theorem splitChar_of_not_mem {sep : Char} :
    ∀ {l : List Char}, sep ∉ l → splitChar sep l = [l] := by
  intro l
  induction l with
  | nil => intro _; rfl
  | cons c rest ih =>
      intro h
      have hc : ¬ c = sep := fun he => h (by simp [he])
      have hrest : sep ∉ rest := fun hm => h (by simp [hm])
      unfold splitChar
      rw [if_neg hc, ih hrest]

theorem splitChar_append {sep : Char} :
    ∀ {xs : List Char} (ys : List Char), sep ∉ xs →
      splitChar sep (xs ++ sep :: ys) = xs :: splitChar sep ys := by
  intro xs
  induction xs with
  | nil => intro ys _; simp [splitChar]
  | cons c rest ih =>
      intro ys h
      have hc : ¬ c = sep := fun he => h (by simp [he])
      have hrest : sep ∉ rest := fun hm => h (by simp [hm])
      rw [List.cons_append]
      simp only [splitChar]
      rw [if_neg hc, ih ys hrest]

/-- A plain defense name: non-empty, and free of whitespace, uppercase
letters and commas, so that normalization and the stack-name split leave
it intact. -/
def IsPlainName (s : String) : Prop :=
  s.data ≠ [] ∧ ∀ c ∈ s.data, isPySpace c = false ∧ Char.toLower c = c ∧ c ≠ ','

instance (s : String) : Decidable (IsPlainName s) := by
  unfold IsPlainName; infer_instance

theorem stack_chars_plain :
    ∀ c ∈ "stack:".data, isPySpace c = false ∧ Char.toLower c = c := by decide

theorem dfnF_stack_eq (fuel : ℕ) (name : List Char)
    (hst : (normalizeName name).take 6 = "stack:".data)
    (p0 p1 : List Char) (rest : List (List Char))
    (hp : stackParts (normalizeName name) = p0 :: p1 :: rest) :
    defense_from_name_fuel (fuel + 1) name
      = .stacked (defense_from_name_fuel fuel p0) (defense_from_name_fuel fuel p1) := by
  simp only [defense_from_name_fuel]
  rw [if_pos hst, hp]

/-- C5: names of the form stack:X,Y resolve to the stacked composition of
the defenses named X and Y; the stacked defense applies its first defense
and feeds both deltas, shifted by the first output, to its second; every
name that neither carries the stack: marker nor matches a known variant
resolves to the default DampeningDefense; and the E4 scenario
defense_from_name("stack:clipping,dampening").defend(0.2, -0.5) yields
the (finite) scalar 0.14. -/
theorem defense_from_name_spec (X Y : String) (hX : IsPlainName X)
    (hY : IsPlainName Y) (A B : DefenseModel) (f a : ℚ) :
    defense_from_name ("stack:" ++ X ++ "," ++ Y)
        = .stacked (defense_from_name X) (defense_from_name Y)
      ∧ (DefenseModel.stacked A B).defend f a
        = B.defend (f + A.defend f a) (a + A.defend f a)
      ∧ (∀ (name : String),
          (normalizeName name.data).take 6 ≠ "stack:".data →
          normalizeName name.data ≠ "dampening".data →
          normalizeName name.data ≠ "default".data →
          normalizeName name.data ≠ "clipping".data →
          normalizeName name.data ≠ "clip".data →
          normalizeName name.data ≠ "bias_guard".data →
          normalizeName name.data ≠ "bias".data →
          normalizeName name.data ≠ "ensemble".data →
          normalizeName name.data ≠ "filter_ensemble".data →
          defense_from_name name = .dampeningD (3/5))
      ∧ defense_from_name "stack:clipping,dampening"
        = .stacked (.clippingD (1/5)) (.dampeningD (3/5))
      ∧ (defense_from_name "stack:clipping,dampening").defend (1/5) (-(1/2))
        = 7/50 := by
  obtain ⟨hXne, hXc⟩ := hX
  obtain ⟨hYne, hYc⟩ := hY
  refine ⟨?_, rfl, ?_, rfl, ?_⟩
  · have hdata : ("stack:" ++ X ++ "," ++ Y).data
        = "stack:".data ++ (X.data ++ ',' :: Y.data) := by
      simp [String.data_append]
    have hplain : ∀ c ∈ ("stack:" ++ X ++ "," ++ Y).data,
        isPySpace c = false ∧ Char.toLower c = c := by
      intro c hc
      rw [hdata] at hc
      rcases List.mem_append.mp hc with h | h
      · exact stack_chars_plain c h
      · rcases List.mem_append.mp h with h' | h'
        · exact ⟨(hXc c h').1, (hXc c h').2.1⟩
        · rcases List.mem_cons.mp h' with h'' | h''
          · subst h''; exact ⟨rfl, rfl⟩
          · exact ⟨(hYc c h'').1, (hYc c h'').2.1⟩
    have hnorm : normalizeName ("stack:" ++ X ++ "," ++ Y).data
        = ("stack:" ++ X ++ "," ++ Y).data := normalizeName_eq_self hplain
    have htake : (("stack:" ++ X ++ "," ++ Y).data).take 6 = "stack:".data := by
      rw [hdata]; exact List.take_left' rfl
    have hdrop : (("stack:".data ++ (X.data ++ ',' :: Y.data))).drop 6
        = X.data ++ ',' :: Y.data := List.drop_left' rfl
    have hXY : ∀ p ∈ [X.data, Y.data], pyStripList p = p := by
      intro p hp
      rcases List.mem_cons.mp hp with h | h
      · subst h; exact pyStripList_eq_self_of_no_space (fun c hc => (hXc c hc).1)
      · simp only [List.mem_singleton] at h
        subst h; exact pyStripList_eq_self_of_no_space (fun c hc => (hYc c hc).1)
    have hparts : stackParts ("stack:" ++ X ++ "," ++ Y).data = [X.data, Y.data] := by
      unfold stackParts
      rw [hdata, hdrop]
      rw [splitChar_append Y.data (fun hm => ((hXc ',' hm).2.2 rfl))]
      rw [splitChar_of_not_mem (fun hm => ((hYc ',' hm).2.2 rfl))]
      simp only [List.map_cons, List.map_nil,
        hXY X.data (by simp), hXY Y.data (by simp)]
      simp [List.filter, hXne, hYne]
    have hmain : defense_from_name ("stack:" ++ X ++ "," ++ Y)
        = .stacked
            (defense_from_name_fuel ("stack:" ++ X ++ "," ++ Y).data.length X.data)
            (defense_from_name_fuel ("stack:" ++ X ++ "," ++ Y).data.length Y.data) := by
      unfold defense_from_name
      exact dfnF_stack_eq _ _ (by rw [hnorm]; exact htake) X.data Y.data []
        (by rw [hnorm]; exact hparts)
    rw [hmain]
    have hlen : X.data.length < ("stack:" ++ X ++ "," ++ Y).data.length
        ∧ Y.data.length < ("stack:" ++ X ++ "," ++ Y).data.length := by
      rw [hdata]
      simp only [List.length_append, List.length_cons]
      omega
    have e0 : defense_from_name_fuel ("stack:" ++ X ++ "," ++ Y).data.length X.data
        = defense_from_name_fuel (X.data.length + 1) X.data :=
      dfnF_fuel_irrelevant _ _ _ hlen.1 (by omega)
    have e1 : defense_from_name_fuel ("stack:" ++ X ++ "," ++ Y).data.length Y.data
        = defense_from_name_fuel (Y.data.length + 1) Y.data :=
      dfnF_fuel_irrelevant _ _ _ hlen.2 (by omega)
    rw [e0, e1]
    unfold defense_from_name
    rfl
  · intro name hstack h1 h2 h3 h4 h5 h6 h7 h8
    unfold defense_from_name
    simp only [defense_from_name_fuel]
    rw [if_neg hstack]
    unfold baseDefense
    rw [if_neg (by tauto), if_neg (by tauto), if_neg (by tauto), if_neg (by tauto)]
  · rw [show defense_from_name "stack:clipping,dampening"
        = DefenseModel.stacked (.clippingD (1/5)) (.dampeningD (3/5)) from rfl]
    simp only [DefenseModel.defend]
    norm_num [max_def, min_def]

/-- Witness for defense_from_name_spec at the E4 operands. -/
theorem defense_from_name_spec_witness :
    defense_from_name ("stack:" ++ "clipping" ++ "," ++ "dampening")
        = .stacked (defense_from_name "clipping") (defense_from_name "dampening") :=
  (defense_from_name_spec "clipping" "dampening" (by decide) (by decide)
    (.clippingD (1/5)) (.dampeningD (3/5)) 0 0).1

/-- Per-step record emitted by the engine (types.StepResult). -/
structure StepResult where
  next_state : ForecastState
  actions : AgentAction × AgentAction × AgentAction
  reward_breakdown : List (String × ℚ)
  forecast : ℚ
  target : ℚ
  confidence : ConfidenceInterval
  messages : AgentMessage × AgentMessage × AgentMessage

/-- Trajectory record of a round (types.TrajectoryEntry). -/
structure TrajectoryEntry where
  round_idx : ℕ
  state : ForecastState
  actions : AgentAction × AgentAction × AgentAction
  messages : AgentMessage × AgentMessage × AgentMessage
  reward_breakdown : List (String × ℚ)
  forecast : ℚ
  target : ℚ

/-- Log-shaped dict of primitives appended per round (game.py). -/
structure TrajLog where
  round_idx : ℕ
  state : ForecastState
  actions : List AgentAction
  forecast : ℚ
  target : ℚ
  reward : ℚ
  disturbance : ℚ
  messages : List AgentMessage

/-- Convergence summary of a run. -/
structure Convergence where
  rounds_executed : ℕ
  max_rounds : ℤ
  round_cap_hit : Bool

/-- The outputs bundle of ForecastGame.run (game.GameOutputs). -/
structure GameOutputs where
  steps : List StepResult
  trajectories : List TrajectoryEntry
  trajectory_logs : List TrajLog
  forecasts : List ℚ
  targets : List ℚ
  confidence : List ConfidenceInterval
  convergence : Convergence

/-- The four default agents' behaviors, as plugged into the engine loop.
Each field is the (total) act function of the corresponding agent; the
safe executor around each call never fires for these fault-free agents. -/
structure GameAgents where
  forecasterAct : ForecastState → AgentAction
  adversaryAct : ForecastState → AgentAction
  adversaryName : String
  defenderAct : AgentAction → AgentAction → String → AgentAction
  refactorRevise : ℚ → Bool → ℚ

/-- ForecastingAgent.act with the default llm_repl = None: the pure
runtime delta under the actor name "forecaster". -/
def forecastingAgentAct (runtime : StrategyRuntime) (state : ForecastState) :
    AgentAction :=
  AgentAction.mk "forecaster" (runtime.forecast_delta state)

/-- AdversaryAgent.act: directional attack opposing the expected trend,
shrunk by the attack-cost penalty. -/
def adversaryAgentAct (aggressiveness attack_cost : ℚ) (state : ForecastState) :
    AgentAction :=
  let expected_trend := 2/5 + (2/5) * state.exogenous
  let direction : ℚ := if 0 ≤ expected_trend then -1 else 1
  let base := direction * (2/5) * aggressiveness
  let penalty := min |base| (attack_cost * (1/5))
  let delta := base - (if 0 < base then penalty else -penalty)
  AgentAction.mk "adversary" delta

/-- DefenderAgent.act: resolve the defense by name and apply it. -/
def defenderAgentAct (forecast_action adversary_action : AgentAction)
    (defense_model : String) : AgentAction :=
  AgentAction.mk "defender"
    ((defense_from_name defense_model).defend forecast_action.delta
      adversary_action.delta)

/-- RefactoringAgent.revise with the default step size 0.02; the mock LLM
client applies the identical signed-step rule. -/
def refactoringAgentRevise (latest_error : ℚ) (use_llm : Bool) : ℚ :=
  if use_llm then (if 0 < latest_error then -(1/50) else 1/50)
  else (if 0 < latest_error then -(1/50) else 1/50)

/-- The default agent factory wired to a config (game.default_agent_factory). -/
def defaultAgents (config : SimulationConfig) : GameAgents :=
  { forecasterAct := forecastingAgentAct (runtime_from_name config.runtime_backend)
    adversaryAct := adversaryAgentAct config.adversarial_intensity config.attack_cost
    adversaryName := "adversary"
    defenderAct := defenderAgentAct
    refactorRevise := refactoringAgentRevise }

/-- Write-through update of the cumulative reward mapping. -/
def setReward : List (String × ℚ) → String → ℚ → List (String × ℚ)
  | [], k, v => [(k, v)]
  | (k', v') :: rest, k, v =>
      if k' = k then (k, v) :: rest else (k', v') :: setReward rest k v

/-- Everything one engine round appends and threads forward. -/
structure RoundRecord where
  step : StepResult
  traj : TrajectoryEntry
  logEntry : TrajLog
  forecast : ℚ
  target : ℚ
  ci : ConfidenceInterval

/-- One iteration of the ForecastGame.run loop body, up to the timeout
check: builds the round's records and the updated state, refactor bias,
cumulative rewards and stream. -/
def runRound (config : SimulationConfig) (model : DisturbanceModel)
    (agents : GameAgents) (disturbed : Bool) (idx : ℕ) (state : ForecastState)
    (refactor_bias : ℚ) (cum : List (String × ℚ)) (rng : RNG) :
    RoundRecord × ForecastState × ℚ × List (String × ℚ) × RNG :=
  let f_action := agents.forecasterAct state
  let a_action := if disturbed then agents.adversaryAct state
                  else AgentAction.mk agents.adversaryName 0
  let d_action := agents.defenderAct f_action a_action config.defense_model
  let dr := if disturbed then model.sample state rng config else (0, rng)
  let disturbance_val := dr.1
  let forecast := state.value + f_action.delta + a_action.delta
                    + d_action.delta + refactor_bias
  let nr := nextGauss dr.2 0 config.base_noise_std
  let next_state := evolve_state state (2/5) nr.1 disturbance_val
  let target := next_state.value
  let error := target - forecast
  let reward := -|error|
  let refactor_bias' :=
    if config.enable_refactor then
      refactor_bias + agents.refactorRevise error config.enable_llm_refactor
    else refactor_bias
  let cum' := setReward cum f_action.actor
    ((alookup cum f_action.actor).getD 0 + reward)
  let band := |disturbance_val| + config.base_noise_std + 1/20
  let ci := ConfidenceInterval.mk (forecast - band) (forecast + band)
  let messages := (AgentMessage.mk "forecaster" "adversary" f_action.delta,
                   AgentMessage.mk "adversary" "defender" a_action.delta,
                   AgentMessage.mk "defender" "refactor" d_action.delta)
  let reward_breakdown :=
    [("forecaster", reward), ("adversary", -reward), ("defender", reward)]
  let step := StepResult.mk next_state (f_action, a_action, d_action)
    reward_breakdown forecast target ci messages
  let traj := TrajectoryEntry.mk idx state (f_action, a_action, d_action)
    messages reward_breakdown forecast target
  let logEntry := TrajLog.mk idx state [f_action, a_action, d_action]
    forecast target reward disturbance_val
    [messages.1, messages.2.1, messages.2.2]
  (RoundRecord.mk step traj logEntry forecast target ci,
    next_state, refactor_bias', cum', nr.2)

/-- The engine loop: executes up to fuel rounds starting at round index
idx; a round whose wall-clock time (the elapsed oracle at its index)
exceeds the timeout budget is discarded and ends the run. -/
def runRounds (config : SimulationConfig) (model : DisturbanceModel)
    (agents : GameAgents) (elapsed : ℕ → ℚ) (disturbed : Bool) :
    ℕ → ℕ → ForecastState → ℚ → List (String × ℚ) → RNG → List RoundRecord
  | 0, _, _, _, _, _ => []
  | fuel + 1, idx, state, refactor_bias, cum, rng =>
      let r := runRound config model agents disturbed idx state refactor_bias cum rng
      if config.max_round_timeout_s < elapsed idx then []
      else r.1 :: runRounds config model agents elapsed disturbed fuel (idx + 1)
        r.2.1 r.2.2.1 r.2.2.2.1 r.2.2.2.2

/-- ForecastGame.run: bounds the requested rounds, executes the loop and
assembles GameOutputs with the convergence summary.  The rng argument is
the stream the engine seeds in its constructor; elapsed is the wall-clock
oracle giving each round's duration. -/
def ForecastGame.run (config : SimulationConfig) (agents : GameAgents)
    (rng : RNG) (elapsed : ℕ → ℚ) (initial : ForecastState)
    (rounds : Option ℤ) (disturbed : Bool) : GameOutputs :=
  let requested : ℤ := rounds.getD config.horizon
  let n_rounds : ℕ := (max 0 (min requested config.max_rounds)).toNat
  let recs := runRounds config (disturbance_from_name config.disturbance_model)
    agents elapsed disturbed n_rounds 0 initial 0 [] rng
  { steps := recs.map (·.step)
    trajectories := recs.map (·.traj)
    trajectory_logs := recs.map (·.logEntry)
    forecasts := recs.map (·.forecast)
    targets := recs.map (·.target)
    confidence := recs.map (·.ci)
    convergence := Convergence.mk recs.length config.max_rounds
      (decide ((recs.length : ℤ) = config.max_rounds)) }

theorem runRounds_length_eq (config : SimulationConfig) (model : DisturbanceModel)
    (agents : GameAgents) (elapsed : ℕ → ℚ) (disturbed : Bool)
    (h : ∀ i, elapsed i ≤ config.max_round_timeout_s) :
    ∀ (fuel idx : ℕ) (state : ForecastState) (bias : ℚ)
      (cum : List (String × ℚ)) (rng : RNG),
      (runRounds config model agents elapsed disturbed fuel idx state bias cum rng).length
        = fuel := by
  intro fuel
  induction fuel with
  | zero => intro idx state bias cum rng; rfl
  | succ f ih =>
      intro idx state bias cum rng
      simp only [runRounds]
      rw [if_neg (not_lt.mpr (h idx))]
      simp [ih]

theorem runRounds_length_le (config : SimulationConfig) (model : DisturbanceModel)
    (agents : GameAgents) (elapsed : ℕ → ℚ) (disturbed : Bool) :
    ∀ (fuel idx : ℕ) (state : ForecastState) (bias : ℚ)
      (cum : List (String × ℚ)) (rng : RNG),
      (runRounds config model agents elapsed disturbed fuel idx state bias cum rng).length
        ≤ fuel := by
  intro fuel
  induction fuel with
  | zero => intro idx state bias cum rng; simp [runRounds]
  | succ f ih =>
      intro idx state bias cum rng
      simp only [runRounds]
      split
      · simp
      · simpa using ih (idx + 1) _ _ _ _

theorem runRounds_length_of_timeout (config : SimulationConfig)
    (model : DisturbanceModel) (agents : GameAgents) (elapsed : ℕ → ℚ)
    (disturbed : Bool) :
    ∀ (k fuel idx : ℕ) (state : ForecastState) (bias : ℚ)
      (cum : List (String × ℚ)) (rng : RNG), k < fuel →
      (∀ i, i < k → elapsed (idx + i) ≤ config.max_round_timeout_s) →
      config.max_round_timeout_s < elapsed (idx + k) →
      (runRounds config model agents elapsed disturbed fuel idx state bias cum rng).length
        = k := by
  intro k
  induction k with
  | zero =>
      intro fuel idx state bias cum rng hk _ htk
      cases fuel with
      | zero => exact absurd hk (Nat.lt_irrefl 0)
      | succ f =>
          simp only [runRounds]
          rw [if_pos (by simpa using htk)]
          rfl
  | succ k ih =>
      intro fuel idx state bias cum rng hk hbefore htk
      cases fuel with
      | zero => exact absurd hk (Nat.not_lt_zero _)
      | succ f =>
          simp only [runRounds]
          rw [if_neg (not_lt.mpr (by simpa using hbefore 0 (Nat.succ_pos k)))]
          simp only [List.length_cons]
          have harg1 : ∀ i, i < k →
              elapsed ((idx + 1) + i) ≤ config.max_round_timeout_s := by
            intro i hi
            have h := hbefore (i + 1) (by omega)
            have he : idx + (i + 1) = idx + 1 + i := by omega
            rwa [he] at h
          have harg2 : config.max_round_timeout_s < elapsed ((idx + 1) + k) := by
            have he : idx + (k + 1) = idx + 1 + k := by omega
            rwa [he] at htk
          exact congrArg (fun n => n + 1)
            (ih f (idx + 1) _ _ _ _ (by omega) harg1 harg2)

/-- C10: for every config, agent set, stream, elapsed-time oracle,
initial state, rounds argument and disturbed flag, the six output lists
of ForecastGame.run have one common length, that length is the reported
rounds_executed, and on a run truncated by the round timeout at round k
(all earlier rounds within budget) the common length is exactly k, so
the timed-out round appears in none of the lists. -/
theorem game_outputs_aligned (config : SimulationConfig) (agents : GameAgents)
    (rng : RNG) (elapsed : ℕ → ℚ) (initial : ForecastState)
    (rounds : Option ℤ) (disturbed : Bool) :
    (ForecastGame.run config agents rng elapsed initial rounds disturbed).steps.length
        = (ForecastGame.run config agents rng elapsed initial rounds disturbed).trajectories.length
      ∧ (ForecastGame.run config agents rng elapsed initial rounds disturbed).steps.length
        = (ForecastGame.run config agents rng elapsed initial rounds disturbed).trajectory_logs.length
      ∧ (ForecastGame.run config agents rng elapsed initial rounds disturbed).steps.length
        = (ForecastGame.run config agents rng elapsed initial rounds disturbed).forecasts.length
      ∧ (ForecastGame.run config agents rng elapsed initial rounds disturbed).steps.length
        = (ForecastGame.run config agents rng elapsed initial rounds disturbed).targets.length
      ∧ (ForecastGame.run config agents rng elapsed initial rounds disturbed).steps.length
        = (ForecastGame.run config agents rng elapsed initial rounds disturbed).confidence.length
      ∧ (ForecastGame.run config agents rng elapsed initial rounds disturbed).steps.length
        = (ForecastGame.run config agents rng elapsed initial rounds disturbed).convergence.rounds_executed
      ∧ (∀ k : ℕ,
          (k : ℤ) < max 0 (min (rounds.getD config.horizon) config.max_rounds) →
          (∀ i, i < k → elapsed i ≤ config.max_round_timeout_s) →
          config.max_round_timeout_s < elapsed k →
          (ForecastGame.run config agents rng elapsed initial rounds disturbed).steps.length
            = k) := by
  simp only [ForecastGame.run, List.length_map]
  refine ⟨trivial, trivial, trivial, trivial, trivial, trivial, ?_⟩
  intro k hk hbefore htk
  exact runRounds_length_of_timeout config _ agents elapsed disturbed k _ 0
    initial 0 [] rng (by omega) (fun i hi => by simpa using hbefore i hi)
    (by simpa using htk)

/-- Witness for game_outputs_aligned: a run over the default config whose
second round (index 1) times out executes exactly one round. -/
theorem game_outputs_aligned_witness :
    (ForecastGame.run {} (defaultAgents {}) ⟨fun _ => 1/2, fun _ => 0, 0, 0⟩
        (fun i => if i = 0 then 1/2 else 2) ⟨0, 10, 0, 0, "", [], []⟩
        none true).steps.length = 1 := by
  have h := game_outputs_aligned {} (defaultAgents {})
    ⟨fun _ => 1/2, fun _ => 0, 0, 0⟩ (fun i => if i = 0 then 1/2 else 2)
    ⟨0, 10, 0, 0, "", [], []⟩ none true
  refine h.2.2.2.2.2.2 1 (by norm_num) ?_ ?_
  · intro i hi
    interval_cases i
    norm_num
  · norm_num

/-- C3: absent a round timeout, ForecastGame.run executes exactly
max(0, min(rounds, max_rounds)) rounds with rounds defaulting to the
horizon; a non-positive rounds argument yields empty outputs; the
convergence summary reports round_cap_hit exactly when rounds_executed
equals max_rounds; and with horizon above max_rounds an unbounded run
executes max_rounds rounds with the cap flag set. -/
theorem run_rounds_bound (config : SimulationConfig) (agents : GameAgents)
    (rng : RNG) (elapsed : ℕ → ℚ) (initial : ForecastState)
    (rounds : Option ℤ) (disturbed : Bool) (hvalid : config.Valid)
    (hto : ∀ i, elapsed i ≤ config.max_round_timeout_s) :
    ((ForecastGame.run config agents rng elapsed initial rounds disturbed).steps.length : ℤ)
        = max 0 (min (rounds.getD config.horizon) config.max_rounds)
      ∧ ((ForecastGame.run config agents rng elapsed initial rounds disturbed).convergence.rounds_executed : ℤ)
        = max 0 (min (rounds.getD config.horizon) config.max_rounds)
      ∧ (∀ r : ℤ, rounds = some r → r ≤ 0 →
          (ForecastGame.run config agents rng elapsed initial rounds disturbed).steps = []
            ∧ (ForecastGame.run config agents rng elapsed initial rounds disturbed).trajectories = []
            ∧ (ForecastGame.run config agents rng elapsed initial rounds disturbed).trajectory_logs = []
            ∧ (ForecastGame.run config agents rng elapsed initial rounds disturbed).forecasts = []
            ∧ (ForecastGame.run config agents rng elapsed initial rounds disturbed).targets = []
            ∧ (ForecastGame.run config agents rng elapsed initial rounds disturbed).confidence = [])
      ∧ ((ForecastGame.run config agents rng elapsed initial rounds disturbed).convergence.round_cap_hit = true
          ↔ ((ForecastGame.run config agents rng elapsed initial rounds disturbed).convergence.rounds_executed : ℤ)
              = config.max_rounds)
      ∧ (config.max_rounds < config.horizon → rounds = none →
          ((ForecastGame.run config agents rng elapsed initial rounds disturbed).steps.length : ℤ)
              = config.max_rounds
            ∧ (ForecastGame.run config agents rng elapsed initial rounds disturbed).convergence.round_cap_hit
              = true) := by
  have hlen : ∀ (n : ℕ) (st : ForecastState) (b : ℚ) (c : List (String × ℚ)) (r : RNG),
      (runRounds config (disturbance_from_name config.disturbance_model) agents
        elapsed disturbed n 0 st b c r).length = n :=
    fun n st b c r => runRounds_length_eq config _ agents elapsed disturbed hto n 0 st b c r
  have hcast : (((max 0 (min (rounds.getD config.horizon) config.max_rounds)).toNat : ℤ))
      = max 0 (min (rounds.getD config.horizon) config.max_rounds) :=
    Int.toNat_of_nonneg (le_max_left 0 _)
  refine ⟨?_, ?_, ?_, ?_, ?_⟩
  · simp only [ForecastGame.run, List.length_map, hlen, hcast]
  · simp only [ForecastGame.run, hlen, hcast]
  · intro r hr hr0
    subst hr
    have hzero : (max 0 (min r config.max_rounds)).toNat = 0 := by
      have h2 : 0 ≤ config.max_rounds := hvalid.2.1
      omega
    simp only [ForecastGame.run, Option.getD_some, hzero, runRounds]
    exact ⟨rfl, rfl, rfl, rfl, rfl, rfl⟩
  · simp only [ForecastGame.run]
    simp [decide_eq_true_iff]
  · intro hcap hnone
    subst hnone
    have hmin : min config.horizon config.max_rounds = config.max_rounds :=
      min_eq_right (le_of_lt hcap)
    have hmax : max 0 (min config.horizon config.max_rounds) = config.max_rounds := by
      rw [hmin]; exact max_eq_right hvalid.2.1
    constructor
    · simp only [ForecastGame.run, List.length_map, hlen, Option.getD_none, hmax]
      exact Int.toNat_of_nonneg hvalid.2.1
    · simp only [ForecastGame.run, hlen, Option.getD_none, hmax]
      simp [decide_eq_true_iff, Int.toNat_of_nonneg hvalid.2.1]

/-- Witness for run_rounds_bound: with horizon 400 and max_rounds 200
(scenario E2), 200 rounds execute and the cap flag is set. -/
theorem run_rounds_bound_witness :
    ((ForecastGame.run { horizon := 400, max_rounds := 200 } (defaultAgents {})
        ⟨fun _ => 1/2, fun _ => 0, 0, 0⟩ (fun _ => 0) ⟨0, 50, 0, 0, "", [], []⟩
        none true).steps.length : ℤ) = 200 := by
  have h := run_rounds_bound { horizon := 400, max_rounds := 200 }
    (defaultAgents {}) ⟨fun _ => 1/2, fun _ => 0, 0, 0⟩ (fun _ => 0)
    ⟨0, 50, 0, 0, "", [], []⟩ none true
    (by constructor <;> norm_num) (fun i => by norm_num)
  exact (h.2.2.2.2 (by norm_num) rfl).1

theorem sample_units_eq (m : DisturbanceModel) (state : ForecastState)
    (rng : RNG) (config : SimulationConfig) :
    ((m.sample state rng config).2).units = rng.units := by
  cases m <;> simp only [DisturbanceModel.sample, nextUnit, nextGauss] <;>
    (repeat' split) <;> rfl

theorem runRound_rng_units (config : SimulationConfig) (model : DisturbanceModel)
    (agents : GameAgents) (disturbed : Bool) (idx : ℕ) (state : ForecastState)
    (bias : ℚ) (cum : List (String × ℚ)) (rng : RNG) :
    ((runRound config model agents disturbed idx state bias cum rng).2.2.2.2).units
      = rng.units := by
  cases disturbed <;>
    simp [runRound, nextGauss, sample_units_eq]

theorem runRound_log_disturbance (config : SimulationConfig)
    (model : DisturbanceModel) (agents : GameAgents) (idx : ℕ)
    (state : ForecastState) (bias : ℚ) (cum : List (String × ℚ)) (rng : RNG) :
    (runRound config model agents true idx state bias cum rng).1.logEntry.disturbance
      = (model.sample state rng config).1 := by
  simp [runRound]

theorem gaussian_sample_zero (state : ForecastState) (config : SimulationConfig)
    (rng : RNG) (hprob : config.disturbance_prob = 0)
    (hpos : 0 < rng.units rng.u) :
    DisturbanceModel.gaussian.sample state rng config
      = (0, { rng with u := rng.u + 1 }) := by
  simp only [DisturbanceModel.sample, nextUnit]
  rw [hprob, if_neg (not_le.mpr hpos)]

theorem runRounds_disturbance_zero (config : SimulationConfig)
    (agents : GameAgents) (elapsed : ℕ → ℚ)
    (hprob : config.disturbance_prob = 0) :
    ∀ (fuel idx : ℕ) (state : ForecastState) (bias : ℚ)
      (cum : List (String × ℚ)) (rng : RNG), (∀ n, 0 < rng.units n) →
      ∀ r ∈ runRounds config DisturbanceModel.gaussian agents elapsed true
          fuel idx state bias cum rng,
        r.logEntry.disturbance = 0 := by
  intro fuel
  induction fuel with
  | zero => intro idx state bias cum rng _ r hr; simp [runRounds] at hr
  | succ f ih =>
      intro idx state bias cum rng hpos r hr
      simp only [runRounds] at hr
      by_cases ht : config.max_round_timeout_s < elapsed idx
      · rw [if_pos ht] at hr
        simp at hr
      · rw [if_neg ht] at hr
        rcases List.mem_cons.mp hr with hr' | hr'
        · subst hr'
          rw [runRound_log_disturbance,
            gaussian_sample_zero state config rng hprob (hpos rng.u)]
        · have hunits : ((runRound config DisturbanceModel.gaussian agents true
              idx state bias cum rng).2.2.2.2).units = rng.units :=
            runRound_rng_units config _ agents true idx state bias cum rng
          exact ih (idx + 1) _ _ _ _ (fun n => by rw [hunits]; exact hpos n) r hr'

/-- C6 counterexample: at disturbance_prob = 0, a stream whose current
uniform draw is exactly 0 (a value inside [0,1)) makes
GaussianDisturbance.sample return the gaussian draw 1 rather than 0,
because the source compares with "less than or equal". -/
theorem gaussian_zero_prob_counterexample :
    ((0:ℚ) ≤ 0 ∧ (0:ℚ) < 1)
      ∧ (DisturbanceModel.gaussian.sample ⟨0, 10, 0, 0, "", [], []⟩
          ⟨fun _ => 0, fun _ => 1, 0, 0⟩ { disturbance_prob := 0 }).1 = 1
      ∧ ¬ ((DisturbanceModel.gaussian.sample ⟨0, 10, 0, 0, "", [], []⟩
          ⟨fun _ => 0, fun _ => 1, 0, 0⟩ { disturbance_prob := 0 }).1 = 0) := by
  have hs : (DisturbanceModel.gaussian.sample ⟨0, 10, 0, 0, "", [], []⟩
      ⟨fun _ => 0, fun _ => 1, 0, 0⟩ { disturbance_prob := 0 }).1 = 1 := by
    simp only [DisturbanceModel.sample, nextUnit, nextGauss]
    norm_num
  refine ⟨⟨le_refl 0, by norm_num⟩, hs, by rw [hs]; norm_num⟩

/-- C6 (amended): with disturbance_prob = 0 the gaussian disturbance
returns 0 for every state, config and stream whose uniform draws are
strictly positive (draws in the open interval (0,1)); consequently a
zero-disturbance-probability run over the gaussian model logs a zero
disturbance value in every round. -/
theorem gaussian_zero_prob_spec :
    (∀ (state : ForecastState) (config : SimulationConfig) (rng : RNG),
        config.disturbance_prob = 0 → 0 < rng.units rng.u →
        DisturbanceModel.gaussian.sample state rng config
          = (0, { rng with u := rng.u + 1 }))
      ∧ (∀ (config : SimulationConfig) (agents : GameAgents) (rng : RNG)
          (elapsed : ℕ → ℚ) (initial : ForecastState) (rounds : Option ℤ),
          config.disturbance_prob = 0 → config.disturbance_model = "gaussian" →
          (∀ n, 0 < rng.units n) →
          ∀ r ∈ (ForecastGame.run config agents rng elapsed initial rounds
              true).trajectory_logs,
            r.disturbance = 0) := by
  refine ⟨fun state config rng h1 h2 => gaussian_sample_zero state config rng h1 h2,
    ?_⟩
  intro config agents rng elapsed initial rounds hprob hname hpos r hr
  simp only [ForecastGame.run, List.mem_map] at hr
  obtain ⟨rec, hrec, hrecr⟩ := hr
  rw [hname] at hrec
  have hg : disturbance_from_name "gaussian" = DisturbanceModel.gaussian := rfl
  rw [hg] at hrec
  rw [← hrecr]
  exact runRounds_disturbance_zero config agents elapsed hprob _ 0 initial 0 []
    rng hpos rec hrec

/-- Witness for gaussian_zero_prob_spec: a concrete zero-probability
sample with a positive draw returns 0, and a concrete one-round run at
disturbance_prob = 0 logs only zero disturbances. -/
theorem gaussian_zero_prob_spec_witness :
    DisturbanceModel.gaussian.sample ⟨0, 10, 0, 0, "", [], []⟩
        ⟨fun _ => 1/2, fun _ => 1, 0, 0⟩ { disturbance_prob := 0 }
      = (0, ⟨fun _ => 1/2, fun _ => 1, 1, 0⟩)
      ∧ (∀ r ∈ (ForecastGame.run { disturbance_prob := 0 } (defaultAgents {})
          ⟨fun _ => 1/2, fun _ => 1, 0, 0⟩ (fun _ => 0) ⟨0, 10, 0, 0, "", [], []⟩
          (some 1) true).trajectory_logs, r.disturbance = 0) := by
  constructor
  · have h := gaussian_zero_prob_spec.1 ⟨0, 10, 0, 0, "", [], []⟩
      { disturbance_prob := 0 } ⟨fun _ => 1/2, fun _ => 1, 0, 0⟩ rfl (by norm_num)
    exact h.trans (by rfl)
  · exact gaussian_zero_prob_spec.2 { disturbance_prob := 0 } (defaultAgents {})
      ⟨fun _ => 1/2, fun _ => 1, 0, 0⟩ (fun _ => 0) ⟨0, 10, 0, 0, "", [], []⟩
      (some 1) rfl rfl (fun n => by norm_num)

/-- Bayesian model-averaging aggregator state (aggregation.py).  The
log-weight arithmetic goes through math.exp, so this component is
modelled over the real numbers. -/
structure BayesianAggregator where
  agent_names : List String
  log_weights : List ℝ
  observation_variance : ℝ := 1
  initialized : Bool := false

/-- Python max(list) over the nonempty log-weight list. -/
def listMax : List ℝ → ℝ
  | [] => 0
  | x :: xs => xs.foldl max x

/-- The weights property: numerically stabilized softmax of the
log-weights, with the source's `sum(...) or 1.0` guard on the total. -/
noncomputable def BayesianAggregator.weights (a : BayesianAggregator) : List ℝ :=
  if a.log_weights = [] then []
  else
    let max_lw := listMax a.log_weights
    let exp_weights := a.log_weights.map (fun lw => Real.exp (lw - max_lw))
    let total := if exp_weights.sum = 0 then 1 else exp_weights.sum
    exp_weights.map (fun w => w / total)

/-- update: add the Gaussian log-likelihood of each named agent's error
to its log-weight; agents absent from the error mapping are unchanged. -/
noncomputable def BayesianAggregator.update (a : BayesianAggregator)
    (agent_errors : String → Option ℝ) : BayesianAggregator :=
  { a with
      log_weights := (a.agent_names.zip a.log_weights).map
        (fun p => match agent_errors p.1 with
          | some err => p.2 + (-(1/2) * err^2 / a.observation_variance)
          | none => p.2) }

/-- A sequence of update calls applied in order. -/
noncomputable def applyUpdates (a : BayesianAggregator) :
    List (String → Option ℝ) → BayesianAggregator
  | [] => a
  | e :: rest => applyUpdates (a.update e) rest

/-- The log-likelihood increment one update contributes to the agent
with the given name. -/
noncomputable def updContrib (obsVar : ℝ) (u : String → Option ℝ)
    (name : String) : ℝ :=
  match u name with
  | some err => -(1/2) * err^2 / obsVar
  | none => 0

theorem sum_map_pos {α : Type} (f : α → ℝ) (hf : ∀ x, 0 < f x) :
    ∀ (l : List α), l ≠ [] → 0 < (l.map f).sum := by
  intro l
  induction l with
  | nil => intro h; exact absurd rfl h
  | cons x xs ih =>
      intro _
      rcases eq_or_ne xs [] with h | h
      · simp [h, hf x]
      · have := ih h
        simp only [List.map_cons, List.sum_cons]
        have := hf x
        linarith

theorem sum_map_div (l : List ℝ) (f : ℝ → ℝ) (c : ℝ) :
    (l.map (fun x => f x / c)).sum = (l.map f).sum / c := by
  induction l with
  | nil => simp
  | cons x xs ih => simp [ih, add_div]

theorem sum_map_exp_shift (l : List ℝ) (m : ℝ) :
    (l.map (fun x => Real.exp (x - m))).sum
      = (l.map Real.exp).sum * Real.exp (-m) := by
  induction l with
  | nil => simp
  | cons x xs ih =>
      simp only [List.map_cons, List.sum_cons, ih, add_mul]
      rw [sub_eq_add_neg, Real.exp_add]

theorem weights_softmax (a : BayesianAggregator) (h : a.log_weights ≠ []) :
    a.weights = a.log_weights.map (fun lw =>
      Real.exp (lw - listMax a.log_weights)
        / (a.log_weights.map (fun x =>
            Real.exp (x - listMax a.log_weights))).sum) := by
  unfold BayesianAggregator.weights
  rw [if_neg h]
  have hpos : 0 < (a.log_weights.map (fun x =>
      Real.exp (x - listMax a.log_weights))).sum :=
    sum_map_pos _ (fun x => Real.exp_pos _) _ h
  simp only [if_neg (ne_of_gt hpos), List.map_map]
  rfl

theorem zip_getElem? (l1 : List String) (l2 : List ℝ) :
    ∀ (k : ℕ), (l1.zip l2)[k]? =
      match l1[k]?, l2[k]? with
      | some x, some y => some (x, y)
      | _, _ => none := by
  induction l1 generalizing l2 with
  | nil => intro k; cases l2 <;> cases k <;> rfl
  | cons x xs ih =>
      intro k
      cases l2 with
      | nil => cases k <;> simp [List.zip]
      | cons y ys =>
          cases k with
          | zero => simp [List.zip]
          | succ k' => simpa using ih ys k'

theorem zip_getElem?_eq (l1 : List String) (l2 : List ℝ) (k : ℕ) (x : String)
    (y : ℝ) (h1 : l1[k]? = some x) (h2 : l2[k]? = some y) :
    (l1.zip l2)[k]? = some (x, y) := by
  rw [zip_getElem?, h1, h2]

theorem update_log_weights_getElem? (a : BayesianAggregator)
    (u : String → Option ℝ) (k : ℕ) (hk : k < a.agent_names.length)
    (hlen : a.log_weights.length = a.agent_names.length) :
    (a.update u).log_weights[k]? =
      (a.log_weights[k]?).map (fun lw =>
        lw + updContrib a.observation_variance u (a.agent_names.getD k "")) := by
  have hn : a.agent_names[k]? = some (a.agent_names.getD k "") := by
    rw [List.getD_eq_getElem?_getD]
    cases hx : a.agent_names[k]? with
    | none => exact absurd (List.getElem?_eq_none_iff.mp hx) (by omega)
    | some v => rfl
  have hw : ∃ lw, a.log_weights[k]? = some lw := by
    cases hx : a.log_weights[k]? with
    | none =>
        have := List.getElem?_eq_none_iff.mp hx
        omega
    | some v => exact ⟨v, rfl⟩
  obtain ⟨lw, hlw⟩ := hw
  unfold BayesianAggregator.update
  rw [List.getElem?_map, zip_getElem?_eq _ _ _ _ _ hn hlw, hlw]
  unfold updContrib
  cases hu : u (a.agent_names.getD k "") with
  | none =>
      simp only [Option.map_some', hu]
      norm_num
  | some e =>
      simp only [Option.map_some', hu]

theorem applyUpdates_fields (obsVar : ℝ) (names : List String) (init : Bool) :
    ∀ (updates : List (String → Option ℝ)) (lw : List ℝ),
      (applyUpdates ⟨names, lw, obsVar, init⟩ updates).agent_names = names
        ∧ (applyUpdates ⟨names, lw, obsVar, init⟩ updates).observation_variance
            = obsVar := by
  intro updates
  induction updates with
  | nil => intro lw; exact ⟨rfl, rfl⟩
  | cons u rest ih => intro lw; exact ih _

theorem update_log_weights_length (a : BayesianAggregator)
    (u : String → Option ℝ) (hlen : a.log_weights.length = a.agent_names.length) :
    (a.update u).log_weights.length = a.agent_names.length := by
  unfold BayesianAggregator.update
  simp [List.length_zip, hlen]

theorem applyUpdates_log_weights_getElem? (obsVar : ℝ) (names : List String)
    (init : Bool) (k : ℕ) (hk : k < names.length) :
    ∀ (updates : List (String → Option ℝ)) (lw : List ℝ),
      lw.length = names.length →
      (applyUpdates ⟨names, lw, obsVar, init⟩ updates).log_weights[k]? =
        some (lw.getD k 0
          + (updates.map (fun u => updContrib obsVar u (names.getD k ""))).sum) := by
  intro updates
  induction updates with
  | nil =>
      intro lw hlen
      simp only [applyUpdates, List.map_nil, List.sum_nil, add_zero]
      rw [List.getD_eq_getElem?_getD]
      cases hx : lw[k]? with
      | none =>
          have := List.getElem?_eq_none_iff.mp hx
          omega
      | some v => rfl
  | cons u rest ih =>
      intro lw hlen
      simp only [applyUpdates]
      have hstep := update_log_weights_getElem?
        ⟨names, lw, obsVar, init⟩ u k hk hlen
      rw [show (⟨names, lw, obsVar, init⟩ : BayesianAggregator).log_weights
          = lw from rfl,
        show (⟨names, lw, obsVar, init⟩ : BayesianAggregator).agent_names
          = names from rfl,
        show (⟨names, lw, obsVar, init⟩ : BayesianAggregator).observation_variance
          = obsVar from rfl] at hstep
      have hlen' : (BayesianAggregator.update ⟨names, lw, obsVar, init⟩ u).log_weights.length
          = names.length :=
        update_log_weights_length ⟨names, lw, obsVar, init⟩ u hlen
      have hupd : BayesianAggregator.update ⟨names, lw, obsVar, init⟩ u
          = ⟨names, (BayesianAggregator.update ⟨names, lw, obsVar, init⟩ u).log_weights,
              obsVar, init⟩ := rfl
      rw [hupd]
      rw [ih _ hlen']
      have hw : ∃ v, lw[k]? = some v := by
        cases hx : lw[k]? with
        | none =>
            have := List.getElem?_eq_none_iff.mp hx
            omega
        | some v => exact ⟨v, rfl⟩
      obtain ⟨v, hv⟩ := hw
      have hgetD : (BayesianAggregator.update ⟨names, lw, obsVar, init⟩ u).log_weights.getD k 0
          = lw.getD k 0 + updContrib obsVar u (names.getD k "") := by
        rw [List.getD_eq_getElem?_getD, hstep, hv]
        rw [show lw.getD k 0 = v from by rw [List.getD_eq_getElem?_getD, hv]; rfl]
        rfl
      rw [hgetD]
      simp only [List.map_cons, List.sum_cons]
      ring_nf

theorem sum_map_lt_sum_map {α : Type} (f g : α → ℝ) :
    ∀ (l : List α), l ≠ [] → (∀ x ∈ l, f x < g x) →
      (l.map f).sum < (l.map g).sum := by
  intro l
  induction l with
  | nil => intro h; exact absurd rfl h
  | cons x xs ih =>
      intro _ hlt
      simp only [List.map_cons, List.sum_cons]
      have h1 : f x < g x := hlt x (by simp)
      have h2 : (xs.map f).sum ≤ (xs.map g).sum :=
        List.sum_le_sum (fun i hi => le_of_lt (hlt i (by simp [hi])))
      linarith

theorem applyUpdates_log_weights_length (obsVar : ℝ) (names : List String)
    (init : Bool) :
    ∀ (updates : List (String → Option ℝ)) (lw : List ℝ),
      lw.length = names.length →
      (applyUpdates ⟨names, lw, obsVar, init⟩ updates).log_weights.length
        = names.length := by
  intro updates
  induction updates with
  | nil => intro lw hlen; exact hlen
  | cons u rest ih =>
      intro lw hlen
      simp only [applyUpdates]
      have hlen' := update_log_weights_length ⟨names, lw, obsVar, init⟩ u hlen
      have hupd : BayesianAggregator.update ⟨names, lw, obsVar, init⟩ u
          = ⟨names, (BayesianAggregator.update ⟨names, lw, obsVar, init⟩ u).log_weights,
              obsVar, init⟩ := rfl
      rw [hupd]
      exact ih _ hlen'

/-- C7: for every aggregator with at least one agent the weights property
equals the plain softmax of the log-weights and sums to 1 within 1e-6;
and starting from freshly initialized (zero) log-weights, any non-empty
sequence of updates in which agent i's absolute error strictly exceeds
agent j's in every round leaves agent i's weight strictly below agent
j's. -/
theorem bayesian_weights_spec :
    (∀ (a : BayesianAggregator), a.log_weights ≠ [] →
        a.weights = a.log_weights.map (fun lw =>
            Real.exp lw / (a.log_weights.map Real.exp).sum)
          ∧ |a.weights.sum - 1| ≤ 1/1000000)
      ∧ (∀ (names : List String) (obsVar : ℝ)
          (updates : List (String → Option ℝ)) (i j : ℕ),
          i < names.length → j < names.length → 0 < obsVar → updates ≠ [] →
          (∀ u ∈ updates, ∃ e1 e2, u (names.getD i "") = some e1
              ∧ u (names.getD j "") = some e2 ∧ |e2| < |e1|) →
          ∃ wi wj,
            (applyUpdates ⟨names, List.replicate names.length 0, obsVar, true⟩
                updates).weights[i]? = some wi
              ∧ (applyUpdates ⟨names, List.replicate names.length 0, obsVar, true⟩
                  updates).weights[j]? = some wj
              ∧ wi < wj) := by
  have hpart1 : ∀ (a : BayesianAggregator), a.log_weights ≠ [] →
      a.weights = a.log_weights.map (fun lw =>
          Real.exp lw / (a.log_weights.map Real.exp).sum)
        ∧ |a.weights.sum - 1| ≤ 1/1000000 := by
    intro a h
    have hm := weights_softmax a h
    have hSpos : 0 < (a.log_weights.map (fun x =>
        Real.exp (x - listMax a.log_weights))).sum :=
      sum_map_pos _ (fun x => Real.exp_pos _) _ h
    have hS : (a.log_weights.map (fun x =>
        Real.exp (x - listMax a.log_weights))).sum
        = (a.log_weights.map Real.exp).sum
            * Real.exp (-(listMax a.log_weights)) :=
      sum_map_exp_shift a.log_weights (listMax a.log_weights)
    constructor
    · rw [hm]
      apply List.map_congr_left
      intro lw _
      rw [hS, sub_eq_add_neg, Real.exp_add]
      rw [mul_div_mul_right _ _ (ne_of_gt (Real.exp_pos _))]
    · rw [hm, sum_map_div, div_self (ne_of_gt hSpos)]
      norm_num
  refine ⟨hpart1, ?_⟩
  intro names obsVar updates i j hi hj hvar hne hupd
  have hlenr : (List.replicate names.length (0:ℝ)).length = names.length :=
    List.length_replicate _ _
  have hgetDr : ∀ k, k < names.length →
      (List.replicate names.length (0:ℝ)).getD k 0 = 0 := by
    intro k hk
    rw [List.getD_eq_getElem?_getD, List.getElem?_replicate, if_pos hk]
    rfl
  have hlw : ∀ k, k < names.length →
      (applyUpdates ⟨names, List.replicate names.length 0, obsVar, true⟩
          updates).log_weights[k]? =
        some ((updates.map (fun u => updContrib obsVar u (names.getD k ""))).sum) := by
    intro k hk
    rw [applyUpdates_log_weights_getElem? obsVar names true k hk updates _ hlenr,
      hgetDr k hk, zero_add]
  have hSij : (updates.map (fun u => updContrib obsVar u (names.getD i ""))).sum
      < (updates.map (fun u => updContrib obsVar u (names.getD j ""))).sum := by
    apply sum_map_lt_sum_map _ _ updates hne
    intro u hu
    obtain ⟨e1, e2, he1, he2, habs⟩ := hupd u hu
    unfold updContrib
    rw [he1, he2]
    have hsq : e2^2 < e1^2 := by
      calc e2^2 = |e2|^2 := (sq_abs e2).symm
        _ < |e1|^2 := by
            exact pow_lt_pow_left₀ habs (abs_nonneg e2) (by norm_num)
        _ = e1^2 := sq_abs e1
    have hnum : -(1/2) * e1^2 < -(1/2) * e2^2 := by linarith
    exact div_lt_div_of_pos_right hnum hvar
  set A := applyUpdates ⟨names, List.replicate names.length 0, obsVar, true⟩
    updates with hA
  have hAlen : A.log_weights.length = names.length :=
    applyUpdates_log_weights_length obsVar names true updates _ hlenr
  have hAne : A.log_weights ≠ [] := by
    intro hcon
    rw [hcon] at hAlen
    simp at hAlen
    omega
  have hwm := weights_softmax A hAne
  have hSpos : 0 < (A.log_weights.map (fun x =>
      Real.exp (x - listMax A.log_weights))).sum :=
    sum_map_pos _ (fun x => Real.exp_pos _) _ hAne
  refine ⟨Real.exp ((updates.map (fun u =>
      updContrib obsVar u (names.getD i ""))).sum - listMax A.log_weights)
        / (A.log_weights.map (fun x =>
            Real.exp (x - listMax A.log_weights))).sum,
    Real.exp ((updates.map (fun u =>
      updContrib obsVar u (names.getD j ""))).sum - listMax A.log_weights)
        / (A.log_weights.map (fun x =>
            Real.exp (x - listMax A.log_weights))).sum, ?_, ?_, ?_⟩
  · rw [hwm, List.getElem?_map, hlw i hi]
    rfl
  · rw [hwm, List.getElem?_map, hlw j hj]
    rfl
  · apply div_lt_div_of_pos_right _ hSpos
    exact Real.exp_lt_exp.mpr (by linarith)

/-- Witness for bayesian_weights_spec: a two-agent aggregator whose
weights sum to 1 within 1e-6, and a single update with errors 0.15 for
a1 and 0.05 for a2 leaves a1's weight strictly below a2's. -/
theorem bayesian_weights_spec_witness :
    |(BayesianAggregator.mk ["a1", "a2"] [0, 0] 1 true).weights.sum - 1|
        ≤ 1/1000000
      ∧ (∃ wi wj,
          (applyUpdates ⟨["a1", "a2"], List.replicate (["a1", "a2"] : List String).length 0, 1, true⟩
              [fun s => if s = "a1" then some (3/20) else
                if s = "a2" then some (1/20) else none]).weights[0]? = some wi
            ∧ (applyUpdates ⟨["a1", "a2"], List.replicate (["a1", "a2"] : List String).length 0, 1, true⟩
                [fun s => if s = "a1" then some (3/20) else
                  if s = "a2" then some (1/20) else none]).weights[1]? = some wj
            ∧ wi < wj) := by
  constructor
  · exact (bayesian_weights_spec.1 ⟨["a1", "a2"], [0, 0], 1, true⟩ (by simp)).2
  · refine bayesian_weights_spec.2 ["a1", "a2"] 1
      [fun s => if s = "a1" then some (3/20) else
        if s = "a2" then some (1/20) else none] 0 1
      (by norm_num) (by norm_num) (by norm_num) (by simp) ?_
    intro u hu
    simp only [List.mem_singleton] at hu
    subst hu
    refine ⟨3/20, 1/20, ?_, ?_, ?_⟩
    · rfl
    · rfl
    · rw [abs_of_pos (by norm_num), abs_of_pos (by norm_num)]
      norm_num

/-- A decimal digit rendered as a character, as Python str does. -/
def digitChar : ℕ → Char
  | 0 => '0' | 1 => '1' | 2 => '2' | 3 => '3' | 4 => '4'
  | 5 => '5' | 6 => '6' | 7 => '7' | 8 => '8' | 9 => '9'
  | _ => '?'

/-- A decimal character parsed back to its digit, as Python int does. -/
def charDigit : Char → ℕ
  | '0' => 0 | '1' => 1 | '2' => 2 | '3' => 3 | '4' => 4
  | '5' => 5 | '6' => 6 | '7' => 7 | '8' => 8 | '9' => 9
  | _ => 0

/-- Little-endian decimal digits of a natural number. -/
def natToDigitsRev (n : ℕ) : List ℕ :=
  if h : n < 10 then [n]
  else n % 10 :: natToDigitsRev (n / 10)
termination_by n
decreasing_by exact Nat.div_lt_self (by omega) (by omega)

/-- Python str(k) for the non-negative state-hash keys. -/
def natToString (n : ℕ) : String := ⟨(natToDigitsRev n).reverse.map digitChar⟩

/-- Python int(s) for canonical decimal numerals. -/
def stringToNat (s : String) : ℕ :=
  s.data.foldl (fun acc c => acc * 10 + charDigit c) 0

theorem charDigit_digitChar (d : ℕ) (hd : d < 10) :
    charDigit (digitChar d) = d := by
  interval_cases d <;> rfl

theorem natToDigitsRev_lt (n : ℕ) : ∀ d ∈ natToDigitsRev n, d < 10 := by
  induction n using Nat.strong_induction_on with
  | _ n ih =>
      intro d hd
      rw [natToDigitsRev] at hd
      by_cases h : n < 10
      · rw [dif_pos h] at hd
        simp only [List.mem_singleton] at hd
        omega
      · rw [dif_neg h] at hd
        rcases List.mem_cons.mp hd with h' | h'
        · subst h'; exact Nat.mod_lt n (by omega)
        · exact ih (n / 10) (Nat.div_lt_self (by omega) (by omega)) d h'

theorem foldl_digits_eq :
    ∀ (l : List ℕ), (∀ d ∈ l, d < 10) → ∀ (acc : ℕ),
      List.foldl (fun acc c => acc * 10 + charDigit c) acc (l.map digitChar)
        = List.foldl (fun acc d => acc * 10 + d) acc l := by
  intro l
  induction l with
  | nil => intro _ acc; rfl
  | cons d ds ih =>
      intro h acc
      simp only [List.map_cons, List.foldl_cons]
      rw [charDigit_digitChar d (h d (by simp))]
      exact ih (fun x hx => h x (by simp [hx])) _

theorem digitsVal_eq (n : ℕ) :
    List.foldl (fun acc d => acc * 10 + d) 0 ((natToDigitsRev n).reverse) = n := by
  suffices h : ∀ (m : ℕ), ∀ (acc : ℕ),
      List.foldl (fun acc d => acc * 10 + d) acc ((natToDigitsRev m).reverse)
        = acc * 10 ^ (natToDigitsRev m).length + m by
    have := h n 0
    simpa using this
  intro m
  induction m using Nat.strong_induction_on with
  | _ m ih =>
      intro acc
      rw [natToDigitsRev]
      by_cases h : m < 10
      · rw [dif_pos h]
        simp
      · rw [dif_neg h]
        simp only [List.reverse_cons, List.foldl_append, List.foldl_cons,
          List.foldl_nil, List.length_cons]
        rw [ih (m / 10) (Nat.div_lt_self (by omega) (by omega)) acc]
        rw [pow_succ]
        have := Nat.div_add_mod m 10
        ring_nf
        omega

theorem stringToNat_natToString (n : ℕ) : stringToNat (natToString n) = n := by
  unfold stringToNat natToString
  show List.foldl (fun acc c => acc * 10 + charDigit c) 0
      ((natToDigitsRev n).reverse.map digitChar) = n
  rw [foldl_digits_eq _ (fun d hd =>
    natToDigitsRev_lt n d (List.mem_reverse.mp hd)) 0]
  exact digitsVal_eq n

/-- Discretized action space of the tabular agents (training.py). -/
structure DiscreteActionSpace where
  n_bins : ℕ := 21
  max_delta : ℚ := 1
  deriving DecidableEq, Repr

/-- Tabular Q-learning agent state; the q_table maps the non-negative
state-hash key to the vector of action values (training.QTableAgent).
The private rng is irrelevant to serialization and omitted. -/
structure QTableAgent where
  action_space : DiscreteActionSpace := {}
  alpha : ℚ := 1/10
  gamma : ℚ := 19/20
  epsilon : ℚ := 1
  epsilon_decay : ℚ := 199/200
  epsilon_min : ℚ := 1/20
  q_table : List (ℕ × List ℚ) := []
  deriving DecidableEq, Repr

/-- The primitive serialized form produced by QTableAgent.to_dict. -/
structure QTableDict where
  q_table : List (String × List ℚ)
  epsilon : ℚ
  n_bins : ℕ
  max_delta : ℚ
  deriving DecidableEq, Repr

/-- QTableAgent.to_dict: stringify each state key, list each vector. -/
def QTableAgent.to_dict (a : QTableAgent) : QTableDict :=
  { q_table := a.q_table.map (fun p => (natToString p.1, p.2))
    epsilon := a.epsilon
    n_bins := a.action_space.n_bins
    max_delta := a.action_space.max_delta }

/-- QTableAgent.from_dict: rebuild the action space from n_bins and
max_delta, restore epsilon, and parse each q_table key back to its
integer form; the learning-rate fields keep their class defaults. -/
def QTableAgent.from_dict (d : QTableDict) : QTableAgent :=
  { action_space := { n_bins := d.n_bins, max_delta := d.max_delta }
    epsilon := d.epsilon
    q_table := d.q_table.map (fun p => (stringToNat p.1, p.2)) }

/-- C8: from_dict inverts to_dict exactly on the q_table entries (every
state key keeps its action-value vector), epsilon, n_bins and max_delta,
for every QTableAgent. -/
theorem qtable_roundtrip (a : QTableAgent) :
    (QTableAgent.from_dict a.to_dict).q_table = a.q_table
      ∧ (QTableAgent.from_dict a.to_dict).epsilon = a.epsilon
      ∧ (QTableAgent.from_dict a.to_dict).action_space.n_bins
        = a.action_space.n_bins
      ∧ (QTableAgent.from_dict a.to_dict).action_space.max_delta
        = a.action_space.max_delta := by
  refine ⟨?_, rfl, rfl, rfl⟩
  unfold QTableAgent.from_dict QTableAgent.to_dict
  simp only [List.map_map]
  have : ∀ p ∈ a.q_table,
      ((fun p => (stringToNat p.1, p.2)) ∘ fun p => (natToString p.1, p.2)) p
        = id p := by
    intro p _
    simp [Function.comp, stringToNat_natToString]
  rw [List.map_congr_left this, List.map_id]

/-- A validated dataset row after ingestion (data.py).  Timestamps are
modelled as integers; only their order matters to the core. -/
structure Row where
  timestamp : ℤ
  series_id : String
  target : ℚ
  promo : ℚ
  macro_index : ℚ
  deriving DecidableEq, Repr

/-- Insertion into a sorted rational list. -/
def insertSorted (x : ℚ) : List ℚ → List ℚ
  | [] => [x]
  | y :: ys => if x ≤ y then x :: y :: ys else y :: insertSorted x ys

/-- Python sorted() over rational values (insertion sort; only the
resulting ordered values matter). -/
def sortQ : List ℚ → List ℚ
  | [] => []
  | x :: xs => insertSorted x (sortQ xs)

/-- Sample mean sum(targets)/len(targets). -/
def pymean (targets : List ℚ) : ℚ := targets.sum / (targets.length : ℚ)

/-- Sample variance with denominator max(1, n-1). -/
def pyvar (targets : List ℚ) : ℚ :=
  (targets.map (fun x => (x - pymean targets)^2)).sum
    / ((max 1 (targets.length - 1) : ℕ) : ℚ)

/-- The source's median: element at index n/2 of the sorted values. -/
def medianQ (targets : List ℚ) : ℚ :=
  (sortQ targets).getD (targets.length / 2) 0

/-- Median absolute deviation with the source's `or 1.0` zero fallback. -/
def madQ (targets : List ℚ) : ℚ :=
  let abs_dev := sortQ (targets.map (fun x => |x - medianQ targets|))
  let mad0 := abs_dev.getD (targets.length / 2) 0
  if mad0 = 0 then 1 else mad0

/-- The per-row suspicion test of detect_poisoning_rows at the default
thresholds 6 and 8.  The source compares |(x-mean)/std| with 6 where
std = sqrt(var) when var > 0 (else 1); as both sides are non-negative
this equals the squared comparison 36*var <= (x-mean)^2 used here, which
keeps the test inside the rationals (suspectB_iff_spec proves the
equivalence with the square-root form). -/
def suspectB (targets : List ℚ) (x : ℚ) : Bool :=
  (if 0 < pyvar targets then
      decide (36 * pyvar targets ≤ (x - pymean targets)^2)
    else decide ((6:ℚ) ≤ |x - pymean targets|))
  || decide ((8:ℚ) ≤ |(6745/10000) * (x - medianQ targets) / madQ targets|)

/-- detect_poisoning_rows: no suspects for fewer than 3 rows, else the
rows whose target fails the z-score or MAD test. -/
def detect_poisoning_rows (rows : List Row) : List Row :=
  if (rows.map (fun r => r.target)).length < 3 then []
  else rows.filter (fun r => suspectB (rows.map (fun r => r.target)) r.target)

/-- The suspicion formula as the specification words it: z-score against
the square-root standard deviation (fallback 1 at zero variance), or the
scaled MAD score (fallback 1 at zero MAD). -/
noncomputable def suspectSpec (targets : List ℚ) (x : ℚ) : Prop :=
  (6:ℝ) ≤ |(((x - pymean targets : ℚ)) : ℝ)
      / (if 0 < pyvar targets then Real.sqrt ((pyvar targets : ℚ) : ℝ) else 1)|
    ∨ (8:ℚ) ≤ |(6745/10000) * (x - medianQ targets) / madQ targets|

/-- should_reject_poisoning: at least two suspects and at least 2% of
the dataset. -/
def should_reject_poisoning (total_rows suspect_rows : ℕ) : Bool :=
  if suspect_rows = 0 then false
  else decide (2 ≤ suspect_rows)
    && decide ((1:ℚ)/50 ≤ (suspect_rows : ℚ) / (max 1 total_rows : ℕ))

/-- Data-loading profile (data.DataProfile); fields not involved in the
post-ingestion pipeline are omitted. -/
structure DataProfile where
  train_ratio : ℚ := 7/10
  valid_ratio : ℚ := 3/20
  normalize : Bool := true
  fail_on_poisoning : Bool := false
  deriving Repr

/-- Constructor-time validation of the profile's split ratios. -/
def DataProfile.Valid (p : DataProfile) : Prop :=
  0 < p.train_ratio ∧ p.train_ratio < 1 ∧ 0 ≤ p.valid_ratio
    ∧ p.valid_ratio < 1 ∧ p.train_ratio + p.valid_ratio < 1

/-- A row after feature normalization; the divided values live in the
reals because the source divides by a square-root standard deviation. -/
structure RowR where
  timestamp : ℤ
  series_id : String
  target : ℝ
  promo : ℝ
  macro_index : ℝ

/-- Cast of an unnormalized row. -/
noncomputable def rowToR (r : Row) : RowR :=
  ⟨r.timestamp, r.series_id, (r.target : ℝ), (r.promo : ℝ), (r.macro_index : ℝ)⟩

/-- normalize_features: replace promo and macro_index by their centered,
std-scaled values (std falls back to 1 at zero variance). -/
noncomputable def normalize_features (rows : List Row) : List RowR :=
  let pvals := rows.map (fun r => r.promo)
  let pstd : ℝ := if 0 < pyvar pvals then Real.sqrt ((pyvar pvals : ℚ) : ℝ) else 1
  let mvals := rows.map (fun r => r.macro_index)
  let mstd : ℝ := if 0 < pyvar mvals then Real.sqrt ((pyvar mvals : ℚ) : ℝ) else 1
  rows.map (fun r =>
    ⟨r.timestamp, r.series_id, (r.target : ℝ),
      (((r.promo - pymean pvals : ℚ)) : ℝ) / pstd,
      (((r.macro_index - pymean mvals : ℚ)) : ℝ) / mstd⟩)

/-- Whether an Except result is the raising branch. -/
def isErr {e a : Type} : Except e a → Bool
  | .error _ => true
  | .ok _ => false

/-- Chronological train/valid/test bundle. -/
structure DatasetBundle (α : Type) where
  train : List α
  valid : List α
  test : List α

/-- chronological_split with its ratio validation; partition indices are
int(n*train) and int(n*train) + int(n*valid). -/
def chronological_split {α : Type} (rows : List α) (train valid : ℚ) :
    Except String (DatasetBundle α) :=
  if ¬ (0 < train ∧ train < 1) then .error "train split must be in (0,1)"
  else if ¬ (0 ≤ valid ∧ valid < 1) then .error "valid split must be in [0,1)"
  else if 1 ≤ train + valid then .error "train + valid split must be < 1"
  else
    let n := rows.length
    let train_end := (⌊(n : ℚ) * train⌋).toNat
    let valid_end := train_end + (⌊(n : ℚ) * valid⌋).toNat
    .ok ⟨rows.take train_end, (rows.drop train_end).take (valid_end - train_end),
      rows.drop valid_end⟩

/-- load_dataset from the point the rows are ingested (file and adapter
input is out of scope): detect poisoning, reject in strict mode,
normalize if requested, split chronologically. -/
noncomputable def load_dataset (profile : DataProfile) (rows : List Row) :
    Except String (DatasetBundle RowR) :=
  if profile.fail_on_poisoning = true
      ∧ should_reject_poisoning rows.length
          (detect_poisoning_rows rows).length = true then
    .error "potential data poisoning detected"
  else
    chronological_split
      (if profile.normalize then normalize_features rows else rows.map rowToR)
      profile.train_ratio profile.valid_ratio

theorem pyvar_nonneg (targets : List ℚ) : 0 ≤ pyvar targets := by
  unfold pyvar
  apply div_nonneg
  · apply List.sum_nonneg
    intro x hx
    obtain ⟨y, _, hy⟩ := List.mem_map.mp hx
    rw [← hy]
    positivity
  · positivity

theorem zscore_sqrt_iff (a v : ℝ) (hv : 0 < v) :
    (6 ≤ |a / Real.sqrt v|) ↔ 36 * v ≤ a^2 := by
  have hs : 0 < Real.sqrt v := Real.sqrt_pos.mpr hv
  have hs2 : Real.sqrt v ^ 2 = v := Real.sq_sqrt (le_of_lt hv)
  rw [abs_div, abs_of_pos hs, le_div_iff hs]
  constructor
  · intro h
    nlinarith [abs_nonneg a, sq_abs a]
  · intro h
    by_contra hcon
    push_neg at hcon
    nlinarith [abs_nonneg a, sq_abs a]

theorem suspectB_iff_spec (targets : List ℚ) (x : ℚ) :
    suspectB targets x = true ↔ suspectSpec targets x := by
  unfold suspectB suspectSpec
  rw [Bool.or_eq_true, decide_eq_true_eq]
  constructor
  · intro h
    rcases h with h | h
    · left
      by_cases hv : 0 < pyvar targets
      · rw [if_pos hv] at h ⊢
        rw [decide_eq_true_eq] at h
        rw [zscore_sqrt_iff _ _ (by exact_mod_cast hv)]
        have hc : ((36 * pyvar targets : ℚ) : ℝ)
            ≤ (((x - pymean targets)^2 : ℚ) : ℝ) := by exact_mod_cast h
        push_cast at hc ⊢
        linarith
      · rw [if_neg hv] at h ⊢
        rw [decide_eq_true_eq] at h
        rw [div_one]
        calc (6:ℝ) ≤ ((|x - pymean targets| : ℚ) : ℝ) := by exact_mod_cast h
          _ = |((x - pymean targets : ℚ) : ℝ)| := by push_cast; rfl
    · right; exact h
  · intro h
    rcases h with h | h
    · left
      by_cases hv : 0 < pyvar targets
      · rw [if_pos hv] at h ⊢
        rw [decide_eq_true_eq]
        rw [zscore_sqrt_iff _ _ (by exact_mod_cast hv)] at h
        have : ((36 * pyvar targets : ℚ) : ℝ) ≤ (((x - pymean targets)^2 : ℚ) : ℝ) := by
          push_cast at h ⊢
          nlinarith
        exact_mod_cast this
      · rw [if_neg hv] at h ⊢
        rw [decide_eq_true_eq]
        rw [div_one] at h
        have : ((6:ℚ) : ℝ) ≤ ((|x - pymean targets| : ℚ) : ℝ) := by
          push_cast at h ⊢
          exact h
        exact_mod_cast this
    · right; exact h

theorem suspectB_one (t x : ℚ) (hx : x = t) : suspectB [t] x = false := by
  subst hx
  have hm : pymean [x] = x := by
    unfold pymean; simp
  have hv : pyvar [x] = 0 := by
    unfold pyvar; rw [hm]; simp
  have hmed : medianQ [x] = x := by
    unfold medianQ; simp [sortQ, insertSorted]
  have hmad : madQ [x] = 1 := by
    unfold madQ
    simp [hmed, sortQ, insertSorted]
  unfold suspectB
  rw [hm, hv, hmed, hmad]
  norm_num

theorem suspectB_two (t1 t2 x : ℚ) (hx : x = t1 ∨ x = t2) :
    suspectB [t1, t2] x = false := by
  have hm : pymean [t1, t2] = (t1 + t2) / 2 := by
    unfold pymean
    simp only [List.sum_cons, List.sum_nil, List.length_cons, List.length_nil]
    push_cast
    ring
  rcases eq_or_ne t1 t2 with heq | hne
  · subst heq
    have hxx : x = t1 := by tauto
    subst hxx
    have hm' : pymean [x, x] = x := by rw [hm]; ring
    have hv : pyvar [x, x] = 0 := by
      unfold pyvar; rw [hm']; simp
    have hmed : medianQ [x, x] = x := by
      unfold medianQ; simp [sortQ, insertSorted]
    have hmad : madQ [x, x] = 1 := by
      unfold madQ
      simp [hmed, sortQ, insertSorted]
    unfold suspectB
    rw [hm', hv, hmed, hmad]
    norm_num
  · have hv : pyvar [t1, t2] = (t1 - t2)^2 / 2 := by
      unfold pyvar
      rw [hm]
      push_cast
      simp only [List.map_cons, List.map_nil, List.sum_cons, List.sum_nil]
      norm_num
      ring_nf
    have hd2 : 0 < (t1 - t2)^2 := by
      have : t1 - t2 ≠ 0 := sub_ne_zero.mpr hne
      positivity
    have hvpos : 0 < pyvar [t1, t2] := by rw [hv]; positivity
    have hz : ¬ (36 * pyvar [t1, t2] ≤ (x - pymean [t1, t2])^2) := by
      rw [hv, hm]
      have hsq : (x - (t1 + t2)/2)^2 = (t1 - t2)^2/4 := by
        rcases hx with h | h <;> subst h <;> ring
      rw [hsq]
      intro hcon
      nlinarith
    have hmz : ¬ ((8:ℚ) ≤ |(6745/10000) * (x - medianQ [t1, t2]) / madQ [t1, t2]|) := by
      rcases le_or_lt t1 t2 with hle | hlt
      · have hlt' : t1 < t2 := lt_of_le_of_ne hle hne
        have hne2 : t2 - t1 ≠ 0 := by intro hcon; apply hne; linarith
        have hsort : sortQ [t1, t2] = [t1, t2] := by
          show insertSorted t1 (insertSorted t2 []) = _
          simp only [insertSorted]
          rw [if_pos hle]
        have hmed : medianQ [t1, t2] = t2 := by
          unfold medianQ; rw [hsort]; norm_num
        have habs1 : |t1 - t2| = t2 - t1 := by
          rw [abs_sub_comm]; exact abs_of_pos (by linarith)
        have hs2 : sortQ [t2 - t1, 0] = [0, t2 - t1] := by
          show insertSorted (t2 - t1) (insertSorted 0 []) = _
          simp only [insertSorted]
          rw [if_neg (by linarith : ¬ (t2 - t1 ≤ 0))]
        have hmad : madQ [t1, t2] = t2 - t1 := by
          unfold madQ
          rw [hmed]
          simp only [List.map_cons, List.map_nil, habs1, sub_self, abs_zero]
          rw [hs2]
          norm_num [hne2]
        rw [hmed, hmad]
        rcases hx with h | h <;> rw [h]
        · have hq : (6745/10000 : ℚ) * (t1 - t2) / (t2 - t1) = -(6745/10000) := by
            field_simp
            ring
          rw [hq, abs_neg, abs_of_nonneg (by norm_num : (0:ℚ) ≤ 6745/10000)]
          norm_num
        · rw [sub_self, mul_zero, zero_div, abs_zero]
          norm_num
      · have hne2 : t1 - t2 ≠ 0 := by intro hcon; apply hne; linarith
        have hsort : sortQ [t1, t2] = [t2, t1] := by
          show insertSorted t1 (insertSorted t2 []) = _
          simp only [insertSorted]
          rw [if_neg (not_le.mpr hlt)]
        have hmed : medianQ [t1, t2] = t1 := by
          unfold medianQ; rw [hsort]; norm_num
        have habs2 : |t2 - t1| = t1 - t2 := by
          rw [abs_sub_comm]; exact abs_of_pos (by linarith)
        have hs2 : sortQ [0, t1 - t2] = [0, t1 - t2] := by
          show insertSorted 0 (insertSorted (t1 - t2) []) = _
          simp only [insertSorted]
          rw [if_pos (by linarith : (0:ℚ) ≤ t1 - t2)]
        have hmad : madQ [t1, t2] = t1 - t2 := by
          unfold madQ
          rw [hmed]
          simp only [List.map_cons, List.map_nil, habs2, sub_self, abs_zero]
          rw [hs2]
          norm_num [hne2]
        rw [hmed, hmad]
        rcases hx with h | h <;> rw [h]
        · rw [sub_self, mul_zero, zero_div, abs_zero]
          norm_num
        · have hq : (6745/10000 : ℚ) * (t2 - t1) / (t1 - t2) = -(6745/10000) := by
            field_simp
            ring
          rw [hq, abs_neg, abs_of_nonneg (by norm_num : (0:ℚ) ≤ 6745/10000)]
          norm_num
    unfold suspectB
    rw [if_pos hvpos]
    rw [Bool.or_eq_false_iff]
    constructor
    · rw [decide_eq_false_iff_not]; exact hz
    · rw [decide_eq_false_iff_not]; exact hmz

theorem detect_mem_iff (rows : List Row) (r : Row) :
    r ∈ detect_poisoning_rows rows ↔
      r ∈ rows ∧ suspectSpec (rows.map (fun row => row.target)) r.target := by
  unfold detect_poisoning_rows
  by_cases hlen : (rows.map (fun row => row.target)).length < 3
  · rw [if_pos hlen]
    simp only [List.not_mem_nil, false_iff]
    rintro ⟨hr, hs⟩
    rw [← suspectB_iff_spec] at hs
    rw [List.length_map] at hlen
    rcases rows with _ | ⟨a, _ | ⟨b, _ | ⟨c, rest⟩⟩⟩
    · simp at hr
    · have hx : r = a := by simpa using hr
      have hfalse := suspectB_one a.target r.target (by rw [hx])
      simp only [List.map_cons, List.map_nil] at hs
      rw [hfalse] at hs
      exact Bool.false_ne_true hs
    · have hx : r = a ∨ r = b := by simpa using hr
      have hfalse := suspectB_two a.target b.target r.target
        (by rcases hx with h | h
            · left; rw [h]
            · right; rw [h])
      simp only [List.map_cons, List.map_nil] at hs
      rw [hfalse] at hs
      exact Bool.false_ne_true hs
    · simp only [List.length_cons] at hlen
      omega
  · rw [if_neg hlen, List.mem_filter]
    exact and_congr_right (fun _ => suspectB_iff_spec _ _)

theorem detect_length_le (rows : List Row) :
    (detect_poisoning_rows rows).length ≤ rows.length := by
  unfold detect_poisoning_rows
  split
  · simp
  · exact List.length_filter_le _ _

theorem chronological_split_ok {α : Type} (rows : List α) (train valid : ℚ)
    (h1 : 0 < train) (h2 : train < 1) (h3 : 0 ≤ valid) (h4 : valid < 1)
    (h5 : train + valid < 1) :
    isErr (chronological_split rows train valid) = false := by
  unfold chronological_split
  rw [if_neg (not_not_intro ⟨h1, h2⟩), if_neg (not_not_intro ⟨h3, h4⟩),
    if_neg (not_le.mpr h5)]
  rfl

/-- C9: a row is flagged suspect exactly when the claim's z-score or MAD
formula holds (with the source's fallbacks), and with fail_on_poisoning
enabled load_dataset raises exactly when at least two suspects are found
making up at least 2% of the rows. -/
theorem poisoning_detection_spec :
    (∀ (rows : List Row) (r : Row),
        r ∈ detect_poisoning_rows rows ↔
          r ∈ rows ∧ suspectSpec (rows.map (fun row => row.target)) r.target)
      ∧ (∀ (profile : DataProfile) (rows : List Row),
          profile.Valid → profile.fail_on_poisoning = true →
          (isErr (load_dataset profile rows) = true ↔
            2 ≤ (detect_poisoning_rows rows).length
              ∧ (2:ℚ)/100 ≤ ((detect_poisoning_rows rows).length : ℚ)
                  / (rows.length : ℚ))) := by
  refine ⟨detect_mem_iff, ?_⟩
  intro profile rows hp hf
  obtain ⟨hp1, hp2, hp3, hp4, hp5⟩ := hp
  have hsn : (detect_poisoning_rows rows).length ≤ rows.length :=
    detect_length_le rows
  unfold load_dataset
  by_cases hcond : should_reject_poisoning rows.length
      (detect_poisoning_rows rows).length = true
  · rw [if_pos ⟨hf, hcond⟩]
    simp only [isErr, true_iff]
    unfold should_reject_poisoning at hcond
    by_cases hzero : (detect_poisoning_rows rows).length = 0
    · rw [if_pos hzero] at hcond
      exact absurd hcond Bool.false_ne_true
    · rw [if_neg hzero, Bool.and_eq_true, decide_eq_true_eq,
        decide_eq_true_eq] at hcond
      obtain ⟨hc1, hc2⟩ := hcond
      refine ⟨hc1, ?_⟩
      have hn2 : 2 ≤ rows.length := le_trans hc1 hsn
      have hmax : (max 1 rows.length : ℕ) = rows.length :=
        Nat.max_eq_right (by omega)
      rw [hmax] at hc2
      calc (2:ℚ)/100 = 1/50 := by norm_num
        _ ≤ _ := hc2
  · rw [if_neg (fun hboth => hcond hboth.2)]
    have hok : ∀ (rows2 : List RowR),
        isErr (chronological_split rows2 profile.train_ratio profile.valid_ratio)
          = false :=
      fun rows2 => chronological_split_ok rows2 _ _ hp1 hp2 hp3 hp4 hp5
    constructor
    · intro hcontra
      rw [hok] at hcontra
      exact absurd hcontra Bool.false_ne_true
    · rintro ⟨hc1, hc2⟩
      exfalso
      apply hcond
      unfold should_reject_poisoning
      rw [if_neg (by omega), Bool.and_eq_true, decide_eq_true_eq,
        decide_eq_true_eq]
      refine ⟨hc1, ?_⟩
      have hn2 : 2 ≤ rows.length := le_trans hc1 hsn
      have hmax : (max 1 rows.length : ℕ) = rows.length :=
        Nat.max_eq_right (by omega)
      rw [hmax]
      calc (1:ℚ)/50 = 2/100 := by norm_num
        _ ≤ _ := hc2

/-- Witness for poisoning_detection_spec: on an empty row list with
strict mode on, load_dataset does not raise, matching the (failed)
two-suspect condition. -/
theorem poisoning_detection_spec_witness :
    (isErr (load_dataset { fail_on_poisoning := true } []) = true ↔
      2 ≤ (detect_poisoning_rows []).length
        ∧ (2:ℚ)/100 ≤ ((detect_poisoning_rows []).length : ℚ)
            / (([] : List Row).length : ℚ)) :=
  poisoning_detection_spec.2 { fail_on_poisoning := true } []
    (by refine ⟨by norm_num, by norm_num, by norm_num, by norm_num, by norm_num⟩)
    rfl

end Marl
